import Mathlib

/-!
# RTIMULib fusion engine: `RTFusion::calculatePose`, the derived-vector utilities, RTQF

A shallow embedding of `src/RTIMULib/RTFusion.cpp` and of the RTQF filter declared in
`src/RTIMULib/RTFusionRTQF.h`.  `RTFLOAT` components are taken in a linearly ordered
field `α` (the reals; the rationals for evaluation), so rounding is not modelled.  The
vector and quaternion primitives of `RTMath.cpp` are not part of the sources at hand;
the transcendental ones are parameters (`RTMath`, `RTQFMath`), the algebraic ones
(Hamilton product, conjugate) follow the specification, as do the member functions of
the RTQF filter.
-/

namespace RTIMULib

/-! ## Data model -/

/-- Three components `m_data[0..2]` of an `RTVector3`, read by `x()`, `y()`, `z()`. -/
structure RTVector3 (α : Type) where
  x : α
  y : α
  z : α
deriving DecidableEq

/-- Four components `m_data[0..3]` of an `RTQuaternion`, read by `scalar()`, `x()`, `y()`,
`z()`. -/
structure RTQuaternion (α : Type) where
  scalar : α
  x : α
  y : α
  z : α
deriving DecidableEq

namespace RTQuaternion

variable {α : Type}

/-- Indexed read `data(i)` of `m_data[i]` with an `int` index: index 0 is the scalar, 1 to 3
are x, y, z.  An index outside `0..3` is outside the array and has no value. -/
def data (q : RTQuaternion α) (i : Int) : Option α :=
  if i = 0 then some q.scalar
  else if i = 1 then some q.x
  else if i = 2 then some q.y
  else if i = 3 then some q.z
  else none

/-- Modelled from the spec: `RTQuaternion::operator*` (RTMath.cpp is absent), the Hamilton
product of section 4.1. -/
def mul [Ring α] (qa qb : RTQuaternion α) : RTQuaternion α :=
  { scalar := qa.scalar * qb.scalar - qa.x * qb.x - qa.y * qb.y - qa.z * qb.z
    x := qa.scalar * qb.x + qa.x * qb.scalar + qa.y * qb.z - qa.z * qb.y
    y := qa.scalar * qb.y - qa.x * qb.z + qa.y * qb.scalar + qa.z * qb.x
    z := qa.scalar * qb.z + qa.x * qb.y - qa.y * qb.x + qa.z * qb.scalar }

/-- Modelled from the spec: `RTQuaternion::conjugate` (RTMath.cpp is absent), the
quaternion conjugate of section 4.1: same scalar, negated vector part. -/
def conjugate [Ring α] (q : RTQuaternion α) : RTQuaternion α :=
  { scalar := q.scalar, x := -q.x, y := -q.y, z := -q.z }

/-- The four setter calls of RTFusion.cpp lines 101-104: every component replaced by its
negation. -/
def negate [Ring α] (q : RTQuaternion α) : RTQuaternion α :=
  { scalar := -q.scalar, x := -q.x, y := -q.y, z := -q.z }

end RTQuaternion

/-- Modelled from the spec: the RTMath.cpp conversions called by `calculatePose`, absent
from the sources and taken as parameters.  `accelToEuler` is the gravity-tilt pose of
an accel vector (written to its argument), `fromEuler` the Euler-to-quaternion
conversion, `toEuler` the quaternion-to-Euler conversion, `atan2` the C library
function. -/
structure RTMath (α : Type) where
  accelToEuler : RTVector3 α → RTVector3 α
  fromEuler : RTVector3 α → RTQuaternion α
  toEuler : RTQuaternion α → RTVector3 α
  atan2 : α → α → α

/-- Member variables of `RTFusion` used in RTFusion.cpp. -/
structure RTFusion (α : Type) where
  m_fusionPose : RTVector3 α
  m_fusionQPose : RTQuaternion α
  m_measuredPose : RTVector3 α
  m_measuredQPose : RTQuaternion α
  m_compassValid : Bool
  m_firstTime : Bool
  m_slerpPower : α
  m_debug : Bool
  m_enableGyro : Bool
  m_enableAccel : Bool
  m_enableCompass : Bool
deriving DecidableEq

/-! ## `RTFusion::calculatePose` -/

section CalculatePose

variable {α : Type} [LinearOrderedField α]

/-- Lines 61-66: the pose after the accel step. -/
def accelStep (P : RTMath α) (s : RTFusion α) (accel : RTVector3 α) : RTVector3 α :=
  if s.m_enableAccel then
    P.accelToEuler accel
  else
    { s.m_fusionPose with z := 0 }

/-- Line 75: `m = q * m * q.conjugate()` with `m = (0, mag)`; C++ groups it from the left. -/
def rotatedMag (P : RTMath α) (pose mag : RTVector3 α) : RTQuaternion α :=
  let q := P.fromEuler pose
  let m : RTQuaternion α := { scalar := 0, x := mag.x, y := mag.y, z := mag.z }
  (q.mul m).mul q.conjugate

/-- Lines 68-79: the pose after the compass step, from the pose of the accel step. -/
def compassStep (P : RTMath α) (s : RTFusion α) (pose mag : RTVector3 α)
    (magDeclination : α) : RTVector3 α :=
  if s.m_enableCompass && s.m_compassValid then
    let m := rotatedMag P pose mag
    { pose with z := -P.atan2 m.y m.x - magDeclination }
  else
    { pose with z := s.m_fusionPose.z }

/-- Lines 90-93: one pass of the loop body at index `i`, on `(maxIndex, maxVal)`. -/
def maxSearchStep (q : RTQuaternion α) (st : Int × α) (i : Int) : Option (Int × α) :=
  match q.data i with
  | none => none
  | some d => if |d| > st.2 then some (i, |d|) else some st

/-- Lines 86-94: the search for the largest component, from `maxIndex = -1` and
`maxVal = -1000`, over `i = 0, 1, 2, 3`. -/
def maxSearch (q : RTQuaternion α) : Option (Int × α) :=
  [0, 1, 2, 3].foldlM (maxSearchStep q) (-1, -1000)

/-- Line 99-100: the test of the sign-aliasing step on the two components read at
`maxIndex`. -/
def signsDiffer (dm df : α) : Bool :=
  (decide (dm < 0) && decide (df > 0)) || (decide (dm > 0) && decide (df < 0))

/-- Lines 86-106: the sign-aliasing step on the measured pose and quaternion.  A read
outside the quaternion array gives no result. -/
def aliasStep (P : RTMath α) (s : RTFusion α) (pose : RTVector3 α) (q0 : RTQuaternion α) :
    Option (RTVector3 α × RTQuaternion α) :=
  match maxSearch q0 with
  | none => none
  | some (maxIndex, _) =>
    match q0.data maxIndex, s.m_fusionQPose.data maxIndex with
    | some dm, some df =>
      if signsDiffer dm df then
        some (P.toEuler q0.negate, q0.negate)
      else
        some (pose, q0)
    | _, _ => none

/-- Lines 61-81: the Euler pose before the sign-aliasing step. -/
def poseBeforeAlias (P : RTMath α) (s : RTFusion α) (accel mag : RTVector3 α)
    (magDeclination : α) : RTVector3 α :=
  compassStep P s (accelStep P s accel) mag magDeclination

/-- The method `RTFusion::calculatePose` (lines 56-107): the state after the call. -/
def calculatePose (P : RTMath α) (s : RTFusion α) (accel mag : RTVector3 α)
    (magDeclination : α) : Option (RTFusion α) :=
  let pose := poseBeforeAlias P s accel mag magDeclination
  match aliasStep P s pose (P.fromEuler pose) with
  | none => none
  | some (pose1, q1) => some { s with m_measuredPose := pose1, m_measuredQPose := q1 }

end CalculatePose

/-! ## `RTFusion::getAccelResiduals` -/

section Residuals

variable {α : Type} [Ring α]

/-- Lines 121-126 of `getAccelResiduals`: gravity `(0,0,0,1)` taken through
`fusedConjugate * (gravity * m_fusionQPose)`. -/
def rotatedGravity (s : RTFusion α) : RTQuaternion α :=
  let fusedConjugate := s.m_fusionQPose.conjugate
  let gravity : RTQuaternion α := { scalar := 0, x := 0, y := 0, z := 1 }
  let qTemp := gravity.mul s.m_fusionQPose
  fusedConjugate.mul qTemp

/-- The method `RTFusion::getAccelResiduals` (lines 110-134). -/
def getAccelResiduals (s : RTFusion α) (accel : RTVector3 α) : RTVector3 α :=
  let rotatedGravity := rotatedGravity s
  { x := -(accel.x - rotatedGravity.x)
    y := -(accel.y - rotatedGravity.y)
    z := -(accel.z - rotatedGravity.z) }

end Residuals

/-! ## `RTFusion::getAccelGlobalFrame`, the constructor, and the calls as transitions -/

section GlobalFrame

variable {α : Type} [Ring α]

/-- Lines 147-152 of `getAccelGlobalFrame`: the accel `(0, accel)` taken through
`m_fusionQPose * (measuredAccel * fusedConjugate)`. -/
def rotatedAccel (s : RTFusion α) (accel : RTVector3 α) : RTQuaternion α :=
  let fusedConjugate := s.m_fusionQPose.conjugate
  let measuredAccel : RTQuaternion α := { scalar := 0, x := accel.x, y := accel.y, z := accel.z }
  let qTemp := measuredAccel.mul fusedConjugate
  s.m_fusionQPose.mul qTemp

/-- The method `RTFusion::getAccelGlobalFrame` (lines 136-160). -/
def getAccelGlobalFrame (s : RTFusion α) (accel : RTVector3 α) : RTVector3 α :=
  let rotatedAccel := rotatedAccel s accel
  { x := rotatedAccel.x, y := rotatedAccel.y, z := rotatedAccel.z }

/-- A call of `getAccelResiduals` as a transition of the engine: the vector returned and
the engine state after the call.  The body (lines 110-134) assigns to its locals only. -/
def getAccelResidualsCall (s : RTFusion α) (accel : RTVector3 α) :
    RTVector3 α × RTFusion α :=
  (getAccelResiduals s accel, s)

/-- A call of `getAccelGlobalFrame` as a transition of the engine: the vector returned and
the engine state after the call.  The body (lines 136-160) assigns to its locals only. -/
def getAccelGlobalFrameCall (s : RTFusion α) (accel : RTVector3 α) :
    RTVector3 α × RTFusion α :=
  (getAccelGlobalFrame s accel, s)

end GlobalFrame

section Constructor

variable {α : Type} [DivisionRing α]

/-- Line 32: the macro `RTQF_SLERP_POWER`, the literal `(RTFLOAT)0.02`. -/
def RTQF_SLERP_POWER : α := 0.02

/-- The constructor `RTFusion::RTFusion` (lines 41-50), on the members as they are when its
body starts: six members are assigned, the others are left as they were. -/
def RTFusion.construct (members : RTFusion α) : RTFusion α :=
  { members with
    m_debug := false
    m_firstTime := true
    m_enableGyro := true
    m_enableAccel := true
    m_enableCompass := true
    m_slerpPower := RTQF_SLERP_POWER }

end Constructor

/-! ## The RTQF filter (`RTFusionRTQF`)

The class is declared in `RTFusionRTQF.h`; its member functions are defined in
`RTFusionRTQF.cpp`, which is not part of the sources at hand, and follow section 4.3 of
the specification. -/

/-- Modelled from the spec: the RTMath.cpp operations the RTQF filter uses on top of those
of `RTMath`, absent from the sources and taken as parameters (sections 4.1 and 4.3).
The field `normalize` is quaternion normalization, `toAngleAxis` the decomposition of a
rotation quaternion into a rotation angle and a unit axis, `fromAngleAxis` the quaternion
of an angle and an axis. -/
structure RTQFMath (α : Type) extends RTMath α where
  normalize : RTQuaternion α → RTQuaternion α
  toAngleAxis : RTQuaternion α → α × RTVector3 α
  fromAngleAxis : α → RTVector3 α → RTQuaternion α

/-- Modelled from the spec: the Sample of section 3 (the type `RTIMU_DATA`, whose declaration
is absent): gyro, accel and compass vectors, each with a validity flag, and the time
since the previous sample in seconds. -/
structure RTIMU_DATA (α : Type) where
  gyro : RTVector3 α
  gyroValid : Bool
  accel : RTVector3 α
  accelValid : Bool
  compass : RTVector3 α
  compassValid : Bool
  timeDelta : α

/-- Member variables of `RTFusionRTQF` (RTFusionRTQF.h lines 50-66), on top of those of its
base class `RTFusion`. -/
structure RTFusionRTQF (α : Type) extends RTFusion α where
  m_gyro : RTVector3 α
  m_accel : RTVector3 α
  m_compass : RTVector3 α
  m_rotationDelta : RTQuaternion α
  m_rotationPower : RTQuaternion α
  m_rotationUnitVector : RTVector3 α
  m_timeDelta : α
  m_stateQ : RTQuaternion α
  m_stateQError : RTQuaternion α
  m_sampleNumber : Int

section RTQF

variable {α : Type} [LinearOrderedField α]

/-- Modelled from the spec: `RTFusionRTQF::reset` (RTFusionRTQF.cpp is absent), which
re-enters the bootstrap state without clearing the slerp power or the enable flags
(section 4.3). -/
def RTFusionRTQF.reset (s : RTFusionRTQF α) : RTFusionRTQF α :=
  { s with m_firstTime := true }

/-- Modelled from the spec: the start of `RTFusionRTQF::newIMUData` (RTFusionRTQF.cpp is
absent), which reads the sample of the cycle: the three vectors, the time delta, and
whether the compass reading may be trusted this cycle (section 3). -/
def RTFusionRTQF.loadSample (s : RTFusionRTQF α) (data : RTIMU_DATA α) : RTFusionRTQF α :=
  { s with
    m_gyro := data.gyro
    m_accel := data.accel
    m_compass := data.compass
    m_timeDelta := data.timeDelta
    m_compassValid := data.compassValid }

/-- Modelled from the spec: `RTFusionRTQF::predict` (RTFusionRTQF.cpp is absent), step 2 of
section 4.3: the gyro reading over the time delta as the small-angle quaternion
`(1, ½ωx·dt, ½ωy·dt, ½ωz·dt)`, normalized, composed onto `stateQ`, and `stateQ`
normalized again; skipped when gyro fusion is disabled. -/
def RTFusionRTQF.predict (M : RTQFMath α) (s : RTFusionRTQF α) : RTFusionRTQF α :=
  if s.m_enableGyro then
    let deltaQ := M.normalize
      { scalar := 1
        x := 1 / 2 * s.m_gyro.x * s.m_timeDelta
        y := 1 / 2 * s.m_gyro.y * s.m_timeDelta
        z := 1 / 2 * s.m_gyro.z * s.m_timeDelta }
    { s with m_stateQ := M.normalize (s.m_stateQ.mul deltaQ) }
  else
    s

/-- Modelled from the spec: step 3 of section 4.3 in `RTFusionRTQF::newIMUData`
(RTFusionRTQF.cpp is absent): `calculatePose` on the accel and compass of the cycle. -/
def RTFusionRTQF.measure (M : RTQFMath α) (s : RTFusionRTQF α) (magDeclination : α) :
    Option (RTFusionRTQF α) :=
  match calculatePose M.toRTMath s.toRTFusion s.m_accel s.m_compass magDeclination with
  | none => none
  | some base => some { s with toRTFusion := base }

/-- Modelled from the spec: `RTFusionRTQF::update` (RTFusionRTQF.cpp is absent), steps 4 and
5 of section 4.3: the rotation delta `conjugate(stateQ) * measuredQPose`, its
decomposition into angle and unit axis, the rotation power with the angle scaled by the
slerp power, composed onto `stateQ`, and `stateQ` normalized. -/
def RTFusionRTQF.update (M : RTQFMath α) (s : RTFusionRTQF α) : RTFusionRTQF α :=
  let rotationDelta := s.m_stateQ.conjugate.mul s.m_measuredQPose
  let angleAxis := M.toAngleAxis rotationDelta
  let rotationPower := M.fromAngleAxis (angleAxis.1 * s.m_slerpPower) angleAxis.2
  { s with
    m_rotationDelta := rotationDelta
    m_rotationUnitVector := angleAxis.2
    m_rotationPower := rotationPower
    m_stateQ := M.normalize (s.m_stateQ.mul rotationPower) }

/-- Modelled from the spec: step 6 of section 4.3 in `RTFusionRTQF::newIMUData`
(RTFusionRTQF.cpp is absent): publish `stateQ` as the fused quaternion, derive the fused
pose by Euler conversion, count the sample. -/
def RTFusionRTQF.publish (M : RTQFMath α) (s : RTFusionRTQF α) : RTFusionRTQF α :=
  { s with
    m_fusionQPose := s.m_stateQ
    m_fusionPose := M.toEuler s.m_stateQ
    m_sampleNumber := s.m_sampleNumber + 1 }

/-- Modelled from the spec: step 1 of section 4.3 in `RTFusionRTQF::newIMUData`
(RTFusionRTQF.cpp is absent), the first-cycle bootstrap after `calculatePose`: `stateQ`
and the fused quaternion are the measured quaternion, the fused pose is derived from
it, and the bootstrap flag is cleared. -/
def RTFusionRTQF.bootstrap (M : RTQFMath α) (s : RTFusionRTQF α) : RTFusionRTQF α :=
  { s with
    m_stateQ := s.m_measuredQPose
    m_fusionQPose := s.m_measuredQPose
    m_fusionPose := M.toEuler s.m_measuredQPose
    m_firstTime := false }

/-- Modelled from the spec: `RTFusionRTQF::newIMUData` (RTFusionRTQF.cpp is absent), one
cycle of section 4.3 on a sample and the magnetic declination of the settings: the
bootstrap on the first call, otherwise predict, measure, update and publish. -/
def RTFusionRTQF.newIMUData (M : RTQFMath α) (s : RTFusionRTQF α) (data : RTIMU_DATA α)
    (magDeclination : α) : Option (RTFusionRTQF α) :=
  let s0 := s.loadSample data
  if s0.m_firstTime then
    match s0.measure M magDeclination with
    | none => none
    | some s1 => some (s1.bootstrap M)
  else
    match (s0.predict M).measure M magDeclination with
    | none => none
    | some s1 => some ((s1.update M).publish M)

/-- Successive calls of `newIMUData`, one per sample of the list, with one declination. -/
def RTFusionRTQF.runCycles (M : RTQFMath α) (magDeclination : α) :
    RTFusionRTQF α → List (RTIMU_DATA α) → Option (RTFusionRTQF α)
  | s, [] => some s
  | s, data :: rest =>
    match s.newIMUData M data magDeclination with
    | none => none
    | some s1 => RTFusionRTQF.runCycles M magDeclination s1 rest

end RTQF

/-! ## Identifiers: the fusion name table, `fusionType`, and constants of `RTIMUDefs.h` -/

section Identifiers

/-- The table `RTFusion::m_fusionNameMap` (RTFusion.cpp lines 34-39), in its order. -/
def m_fusionNameMap : List String :=
  ["NULL", "Kalman STATE4", "RTQF", "Madgwick", "Mahony"]

/-- The method `RTFusionRTQF::fusionType` (RTFusionRTQF.h line 38), which returns the type
code `RTFUSION_TYPE_RTQF`; that macro is defined in RTFusion.h, absent from the sources,
and is a parameter here. -/
def RTFusionRTQF.fusionType {α : Type} (RTFUSION_TYPE_RTQF : Int) (_s : RTFusionRTQF α) :
    Int :=
  RTFUSION_TYPE_RTQF

/-- Line 39 of RTIMUDefs.h. -/
def RTIMU_TYPE_AUTODISCOVER : Nat := 0

/-- Line 40 of RTIMUDefs.h. -/
def RTIMU_TYPE_NULL : Nat := 1

/-- Line 41 of RTIMUDefs.h. -/
def RTIMU_TYPE_MPU9150 : Nat := 2

/-- Line 42 of RTIMUDefs.h. -/
def RTIMU_TYPE_GD20HM303D : Nat := 3

/-- Line 43 of RTIMUDefs.h. -/
def RTIMU_TYPE_GD20M303DLHC : Nat := 4

/-- Line 44 of RTIMUDefs.h. -/
def RTIMU_TYPE_LSM9DS0 : Nat := 5

/-- Line 45 of RTIMUDefs.h. -/
def RTIMU_TYPE_LSM9DS1 : Nat := 6

/-- Line 46 of RTIMUDefs.h. -/
def RTIMU_TYPE_MPU925x : Nat := 7

/-- Line 47 of RTIMUDefs.h. -/
def RTIMU_TYPE_GD20HM303DLHC : Nat := 8

/-- Line 48 of RTIMUDefs.h. -/
def RTIMU_TYPE_BMX055 : Nat := 9

/-- Line 49 of RTIMUDefs.h. -/
def RTIMU_TYPE_BNO055 : Nat := 10

/-- Line 52 of RTIMUDefs.h; line 51 retires the code 11. -/
def RTIMU_TYPE_LSM6DS33LIS3MDL : Nat := 12

/-- Line 54 of RTIMUDefs.h. -/
def RTIMU_TYPE_HMC5883LADXL345 : Nat := 13

/-- Line 55 of RTIMUDefs.h. -/
def RTIMU_TYPE_ICM20948 : Nat := 14

/-- The IMU type codes of RTIMUDefs.h lines 39-55, in the order they are listed. -/
def imuTypeCodes : List Nat :=
  [RTIMU_TYPE_AUTODISCOVER, RTIMU_TYPE_NULL, RTIMU_TYPE_MPU9150, RTIMU_TYPE_GD20HM303D,
    RTIMU_TYPE_GD20M303DLHC, RTIMU_TYPE_LSM9DS0, RTIMU_TYPE_LSM9DS1, RTIMU_TYPE_MPU925x,
    RTIMU_TYPE_GD20HM303DLHC, RTIMU_TYPE_BMX055, RTIMU_TYPE_BNO055,
    RTIMU_TYPE_LSM6DS33LIS3MDL, RTIMU_TYPE_HMC5883LADXL345, RTIMU_TYPE_ICM20948]

/-- Line 282 of RTIMUDefs.h. -/
def ICM20948_BANK0 : Nat := 0x00

/-- Line 283 of RTIMUDefs.h. -/
def ICM20948_BANK1 : Nat := 0x10

/-- Line 284 of RTIMUDefs.h. -/
def ICM20948_BANK2 : Nat := 0x20

/-- Line 285 of RTIMUDefs.h. -/
def ICM20948_BANK3 : Nat := 0x30

end Identifiers

/-! ## Specification-side notions -/

section Notions

variable {α : Type} [LinearOrderedField α]

/-- Index `k` is that of the largest-magnitude component of `q`; the smallest such index
when several components share the largest magnitude. -/
def IsLargestIndex (q : RTQuaternion α) (k : Int) : Prop :=
  ∃ d, q.data k = some d ∧ (∀ j dj, q.data j = some dj → |dj| ≤ |d|) ∧
    (∀ j dj, j < k → q.data j = some dj → |dj| < |d|)

/-- Both values are non-zero and their signs are opposite. -/
def OppositeSigns (a b : α) : Prop :=
  a ≠ 0 ∧ b ≠ 0 ∧ (0 < a ↔ b < 0)

/-- Squared norm of a quaternion; the quaternion has norm 1 exactly when this is 1. -/
def normSq (q : RTQuaternion α) : α :=
  q.scalar * q.scalar + q.x * q.x + q.y * q.y + q.z * q.z

/-- Law of the absent `fromEuler`: the Euler pose is converted to a unit quaternion
(section 4.2 step 3). -/
def FromEulerUnit (P : RTMath α) : Prop :=
  ∀ e, normSq (P.fromEuler e) = 1

/-- Law of the absent `normalize`: the result has norm 1 whenever the argument is not of zero
magnitude (section 4.1). -/
def NormalizeUnit (M : RTQFMath α) : Prop :=
  ∀ q, q ≠ ⟨0, 0, 0, 0⟩ → normSq (M.normalize q) = 1

/-- Law of the absent `normalize`: a quaternion of norm 1 is its own normalization. -/
def NormalizeFixesUnit (M : RTQFMath α) : Prop :=
  ∀ q, normSq q = 1 → M.normalize q = q

/-- Law of the absent angle and axis operations: the rotation power is never the zero
quaternion (a degenerate decomposition gives the identity, section 7). -/
def RotationPowerNonzero (M : RTQFMath α) : Prop :=
  ∀ q p, M.fromAngleAxis ((M.toAngleAxis q).1 * p) (M.toAngleAxis q).2 ≠ ⟨0, 0, 0, 0⟩

/-- Law of the absent `fromAngleAxis`: a rotation of angle 0 is the identity quaternion,
about any axis. -/
def ZeroAngleIdentity (M : RTQFMath α) : Prop :=
  ∀ u, M.fromAngleAxis 0 u = ⟨1, 0, 0, 0⟩

/-- The decomposition of `q` into angle and axis is exact: the quaternion of that angle and
axis is `q` again. -/
def Recomposes (M : RTQFMath α) (q : RTQuaternion α) : Prop :=
  M.fromAngleAxis (M.toAngleAxis q).1 (M.toAngleAxis q).2 = q

/-- Values of the absent conversions at the level attitude: the gravity tilt of `(0,0,1)`
is the pose `(0,0,0)`, that pose is the quaternion `(1,0,0,0)`, `atan2 0 x` is 0 for
positive `x`, and both `(1,0,0,0)` and `(-1,0,0,0)` read back as the pose `(0,0,0)`. -/
def LevelValues (P : RTMath α) : Prop :=
  P.accelToEuler ⟨0, 0, 1⟩ = ⟨0, 0, 0⟩ ∧ P.fromEuler ⟨0, 0, 0⟩ = ⟨1, 0, 0, 0⟩ ∧
    (∀ x, 0 < x → P.atan2 0 x = 0) ∧
    P.toEuler ⟨1, 0, 0, 0⟩ = ⟨0, 0, 0⟩ ∧ P.toEuler ⟨-1, 0, 0, 0⟩ = ⟨0, 0, 0⟩

/-- Squared Euclidean norm of a vector. -/
def vnormSq (v : RTVector3 α) : α :=
  v.x * v.x + v.y * v.y + v.z * v.z

/-- Two sample lists of the same length whose samples agree, position by position, on the
gyro reading and the time delta. -/
def SameGyro : List (RTIMU_DATA α) → List (RTIMU_DATA α) → Prop
  | [], [] => True
  | a :: as, b :: bs => a.gyro = b.gyro ∧ a.timeDelta = b.timeDelta ∧ SameGyro as bs
  | _, _ => False

end Notions

/-! ## Example data over the rationals -/

section Examples

/-- Values of the absent conversions at the arguments the examples use, with angles counted
in degrees (one turn is 360), a unit in which these values are rational and exact:
the gravity tilt of `(0,0,1)` is the level pose `(0,0,0)`; a single turn about the yaw
axis or about the roll axis has half-angle 180 and is the quaternion `(-1,0,0,0)`; the
level pose is `(1,0,0,0)`; both `(1,0,0,0)` and `(-1,0,0,0)` read back as the pose
`(0,0,0)`; and `atan2 0 x = 0` for `x > 0`.  No other argument is used. -/
def exampleMath : RTMath ℚ where
  accelToEuler := fun _ => ⟨0, 0, 0⟩
  fromEuler := fun e =>
    if e = ⟨0, 0, 360⟩ ∨ e = ⟨360, 0, 0⟩ then ⟨-1, 0, 0, 0⟩ else ⟨1, 0, 0, 0⟩
  toEuler := fun _ => ⟨0, 0, 0⟩
  atan2 := fun _ _ => 0

/-- A level engine with every sensor enabled and a valid compass. -/
def levelState : RTFusion ℚ where
  m_fusionPose := ⟨0, 0, 0⟩
  m_fusionQPose := ⟨1, 0, 0, 0⟩
  m_measuredPose := ⟨0, 0, 0⟩
  m_measuredQPose := ⟨1, 0, 0, 0⟩
  m_compassValid := true
  m_firstTime := false
  m_slerpPower := 1 / 50
  m_debug := false
  m_enableGyro := true
  m_enableAccel := true
  m_enableCompass := true

/-- Values of the absent RTQF operations at the arguments the examples use, with rotation
angles counted in half turns, a unit in which these values are rational and exact: a
quaternion of norm 1 is its own normalization; a quaternion with zero vector part
decomposes to angle 0 (the degenerate case, axis `(1,0,0)`); a unit quaternion with zero
scalar is a half turn about its vector part; angle 0 is the identity and a half turn
about `u` is `(0, u)`.  No other argument is used. -/
def exampleQFMath : RTQFMath ℚ where
  toRTMath := exampleMath
  normalize := fun q => if normSq q = 1 then q else ⟨1, 0, 0, 0⟩
  toAngleAxis := fun q =>
    if q.x = 0 ∧ q.y = 0 ∧ q.z = 0 then (0, ⟨1, 0, 0⟩) else (1, ⟨q.x, q.y, q.z⟩)
  fromAngleAxis := fun angle u => if angle = 0 then ⟨1, 0, 0, 0⟩ else ⟨0, u.x, u.y, u.z⟩

/-- A stationary level sample: no rotation, gravity along z, compass along x, all valid. -/
def levelSample : RTIMU_DATA ℚ where
  gyro := ⟨0, 0, 0⟩
  gyroValid := true
  accel := ⟨0, 0, 1⟩
  accelValid := true
  compass := ⟨1, 0, 0⟩
  compassValid := true
  timeDelta := 1 / 100

/-- A sample with the same gyro reading and time delta as `levelSample` and other accel
and compass content. -/
def tiltedSample : RTIMU_DATA ℚ :=
  { levelSample with accel := ⟨3, 4, 5⟩, compass := ⟨0, 7, 2⟩, compassValid := false }

/-- A filter before its first cycle, with slerp power 1. -/
def freshFilter : RTFusionRTQF ℚ where
  toRTFusion := { levelState with m_firstTime := true, m_slerpPower := 1 }
  m_gyro := ⟨0, 0, 0⟩
  m_accel := ⟨0, 0, 0⟩
  m_compass := ⟨0, 0, 0⟩
  m_rotationDelta := ⟨1, 0, 0, 0⟩
  m_rotationPower := ⟨1, 0, 0, 0⟩
  m_rotationUnitVector := ⟨0, 0, 0⟩
  m_timeDelta := 0
  m_stateQ := ⟨1, 0, 0, 0⟩
  m_stateQError := ⟨1, 0, 0, 0⟩
  m_sampleNumber := 0

/-- A filter past its bootstrap with slerp power 1, whose state and fused quaternion are a
half turn about x. -/
def halfTurnFilter : RTFusionRTQF ℚ :=
  { freshFilter with
    m_firstTime := false
    m_fusionQPose := ⟨0, 1, 0, 0⟩
    m_stateQ := ⟨0, 1, 0, 0⟩ }

/-- A filter past its bootstrap with slerp power 0. -/
def gyroOnlyFilter : RTFusionRTQF ℚ :=
  { freshFilter with m_firstTime := false, m_slerpPower := 0 }

end Examples

/-! ## Lemmas on the largest-component search and the sign-aliasing step -/

section Lemmas

variable {α : Type}

theorem data_eq_some_iff (q : RTQuaternion α) (j : Int) (d : α) :
    q.data j = some d ↔
      (j = 0 ∧ d = q.scalar) ∨ (j = 1 ∧ d = q.x) ∨ (j = 2 ∧ d = q.y) ∨ (j = 3 ∧ d = q.z) := by
  unfold RTQuaternion.data
  split_ifs with h0 h1 h2 h3
  · subst h0; simp [eq_comm]
  · subst h1; simp [eq_comm]
  · subst h2; simp [eq_comm]
  · subst h3; simp [eq_comm]
  · simp [h0, h1, h2, h3]

theorem data_index_range (q : RTQuaternion α) (j : Int) (d : α) (h : q.data j = some d) :
    j = 0 ∨ j = 1 ∨ j = 2 ∨ j = 3 := by
  rw [data_eq_some_iff] at h
  rcases h with ⟨h, _⟩ | ⟨h, _⟩ | ⟨h, _⟩ | ⟨h, _⟩ <;> simp [h]

theorem data_isSome_of_range (q : RTQuaternion α) (j : Int)
    (h : j = 0 ∨ j = 1 ∨ j = 2 ∨ j = 3) : ∃ d, q.data j = some d := by
  rcases h with rfl | rfl | rfl | rfl <;> exact ⟨_, rfl⟩

variable [LinearOrderedField α]

theorem data_negate (q : RTQuaternion α) (j : Int) :
    q.negate.data j = (q.data j).map (fun d => -d) := by
  unfold RTQuaternion.data RTQuaternion.negate
  split_ifs <;> rfl

theorem signsDiffer_iff (a b : α) : signsDiffer a b = true ↔ OppositeSigns a b := by
  unfold signsDiffer OppositeSigns
  simp only [Bool.or_eq_true, Bool.and_eq_true, decide_eq_true_eq, gt_iff_lt]
  constructor
  · rintro (⟨ha, hb⟩ | ⟨ha, hb⟩)
    · exact ⟨ne_of_lt ha, ne_of_gt hb, ⟨fun h => absurd h (not_lt.mpr ha.le),
        fun h => absurd h (not_lt.mpr hb.le)⟩⟩
    · exact ⟨ne_of_gt ha, ne_of_lt hb, ⟨fun _ => hb, fun _ => ha⟩⟩
  · rintro ⟨ha, hb, hiff⟩
    rcases lt_or_gt_of_ne ha with h | h
    · left
      refine ⟨h, ?_⟩
      rcases lt_or_gt_of_ne hb with h2 | h2
      · exact absurd (hiff.mpr h2) (not_lt.mpr h.le)
      · exact h2
    · right
      exact ⟨h, hiff.mp h⟩

theorem maxSearch_spec (q : RTQuaternion α) :
    ∃ k v, maxSearch q = some (k, v) ∧ IsLargestIndex q k := by
  have h0 : (-1000 : α) < |q.scalar| := lt_of_lt_of_le (by norm_num) (abs_nonneg _)
  simp only [maxSearch, List.foldlM, maxSearchStep, RTQuaternion.data]
  norm_num [h0]
  split_ifs <;> simp only [Option.some_bind] <;> split_ifs <;> simp only [Option.some_bind] <;>
    split_ifs <;> refine ⟨_, ⟨_, rfl⟩, _, rfl, ?_, ?_⟩
  all_goals
    intro j dj
    first
    | (rw [data_eq_some_iff]
       rintro (⟨rfl, rfl⟩ | ⟨rfl, rfl⟩ | ⟨rfl, rfl⟩ | ⟨rfl, rfl⟩) <;> linarith)
    | (intro hlt
       rw [data_eq_some_iff]
       rintro (⟨rfl, rfl⟩ | ⟨rfl, rfl⟩ | ⟨rfl, rfl⟩ | ⟨rfl, rfl⟩) <;> linarith)

theorem isLargestIndex_unique (q : RTQuaternion α) (k1 k2 : Int)
    (h1 : IsLargestIndex q k1) (h2 : IsLargestIndex q k2) : k1 = k2 := by
  obtain ⟨d1, hd1, hmax1, hfirst1⟩ := h1
  obtain ⟨d2, hd2, hmax2, hfirst2⟩ := h2
  rcases lt_trichotomy k1 k2 with h | h | h
  · exact absurd (hfirst2 k1 d1 h hd1) (not_lt.mpr (hmax1 k2 d2 hd2))
  · exact h
  · exact absurd (hfirst1 k2 d2 h hd2) (not_lt.mpr (hmax2 k1 d1 hd1))

theorem isLargestIndex_negate (q : RTQuaternion α) (k : Int) :
    IsLargestIndex q.negate k ↔ IsLargestIndex q k := by
  have key : ∀ (p : RTQuaternion α), IsLargestIndex p k → IsLargestIndex p.negate k := by
    rintro p ⟨d, hd, hmax, hfirst⟩
    refine ⟨-d, by simp [data_negate, hd], ?_, ?_⟩
    · intro j dj hj
      rw [data_negate] at hj
      rcases hq : p.data j with _ | e
      · simp [hq] at hj
      · simp only [hq, Option.map_some', Option.some.injEq] at hj
        subst hj
        simpa using hmax j e hq
    · intro j dj hlt hj
      rw [data_negate] at hj
      rcases hq : p.data j with _ | e
      · simp [hq] at hj
      · simp only [hq, Option.map_some', Option.some.injEq] at hj
        subst hj
        simpa using hfirst j e hlt hq
  constructor
  · intro h
    have h2 := key _ h
    have hnn : q.negate.negate = q := by
      cases q; simp [RTQuaternion.negate]
    rwa [hnn] at h2
  · exact key q

theorem aliasStep_eq (P : RTMath α) (s : RTFusion α) (pose : RTVector3 α)
    (q0 : RTQuaternion α) :
    ∃ k dm df, IsLargestIndex q0 k ∧ q0.data k = some dm ∧
      s.m_fusionQPose.data k = some df ∧
      aliasStep P s pose q0 =
        some (if signsDiffer dm df then (P.toEuler q0.negate, q0.negate) else (pose, q0)) := by
  obtain ⟨k, v, hk, hL⟩ := maxSearch_spec q0
  obtain ⟨dm, hdm, -⟩ := id hL
  obtain ⟨df, hdf⟩ := data_isSome_of_range s.m_fusionQPose k (data_index_range q0 k dm hdm)
  refine ⟨k, dm, df, hL, hdm, hdf, ?_⟩
  simp only [aliasStep, hk, hdm, hdf]
  split_ifs <;> rfl

theorem calculatePose_cases (P : RTMath α) (s : RTFusion α) (accel mag : RTVector3 α)
    (magDeclination : α) :
    ∃ k dm df,
      IsLargestIndex (P.fromEuler (poseBeforeAlias P s accel mag magDeclination)) k ∧
      (P.fromEuler (poseBeforeAlias P s accel mag magDeclination)).data k = some dm ∧
      s.m_fusionQPose.data k = some df ∧
      ((OppositeSigns dm df ∧
          calculatePose P s accel mag magDeclination =
            some { s with
              m_measuredPose :=
                P.toEuler (P.fromEuler (poseBeforeAlias P s accel mag magDeclination)).negate
              m_measuredQPose :=
                (P.fromEuler (poseBeforeAlias P s accel mag magDeclination)).negate }) ∨
        (¬ OppositeSigns dm df ∧
          calculatePose P s accel mag magDeclination =
            some { s with
              m_measuredPose := poseBeforeAlias P s accel mag magDeclination
              m_measuredQPose :=
                P.fromEuler (poseBeforeAlias P s accel mag magDeclination) })) := by
  obtain ⟨k, dm, df, hL, hdm, hdf, h⟩ :=
    aliasStep_eq P s (poseBeforeAlias P s accel mag magDeclination)
      (P.fromEuler (poseBeforeAlias P s accel mag magDeclination))
  refine ⟨k, dm, df, hL, hdm, hdf, ?_⟩
  by_cases hs : signsDiffer dm df = true
  · left
    refine ⟨(signsDiffer_iff _ _).mp hs, ?_⟩
    rw [if_pos hs] at h
    simp only [calculatePose, h]
  · right
    refine ⟨fun ho => hs ((signsDiffer_iff _ _).mpr ho), ?_⟩
    rw [if_neg hs] at h
    simp only [calculatePose, h]

theorem negate_negate (q : RTQuaternion α) : q.negate.negate = q := by
  cases q
  simp [RTQuaternion.negate]

theorem negate_eq_self_iff (q : RTQuaternion α) : q.negate = q ↔ q = ⟨0, 0, 0, 0⟩ := by
  have key : ∀ a : α, -a = a ↔ a = 0 := fun a =>
    ⟨fun h => by linarith, fun h => by simp [h]⟩
  cases q
  simp only [RTQuaternion.negate, RTQuaternion.mk.injEq, key]

theorem mul_nonneg_of_not_oppositeSigns (a b : α) (h : ¬ OppositeSigns a b) : 0 ≤ a * b := by
  rcases lt_trichotomy a 0 with ha | ha | ha
  · rcases lt_trichotomy b 0 with hb | hb | hb
    · exact (mul_pos_of_neg_of_neg ha hb).le
    · simp [hb]
    · exact absurd ((signsDiffer_iff a b).mp (by simp [signsDiffer, ha, hb])) h
  · simp [ha]
  · rcases lt_trichotomy b 0 with hb | hb | hb
    · exact absurd ((signsDiffer_iff a b).mp (by simp [signsDiffer, ha, hb])) h
    · simp [hb]
    · exact (mul_pos ha hb).le

theorem neg_mul_nonneg_of_oppositeSigns (a b : α) (h : OppositeSigns a b) : 0 ≤ -a * b := by
  obtain ⟨ha, hb, hiff⟩ := h
  rcases lt_or_gt_of_ne ha with h1 | h1
  · have hb2 : 0 < b := by
      rcases lt_or_gt_of_ne hb with h2 | h2
      · exact absurd (hiff.mpr h2) (not_lt.mpr h1.le)
      · exact h2
    exact (mul_pos (neg_pos.mpr h1) hb2).le
  · have hb2 : b < 0 := hiff.mp h1
    exact (mul_pos_of_neg_of_neg (neg_lt_zero.mpr h1) hb2).le

theorem hamilton_mul_assoc (a b c : RTQuaternion α) : (a.mul b).mul c = a.mul (b.mul c) := by
  simp only [RTQuaternion.mul, RTQuaternion.mk.injEq]
  refine ⟨by ring, by ring, by ring, by ring⟩

theorem compassStep_of_disabled (P : RTMath α) (s : RTFusion α) (pose mag : RTVector3 α)
    (d : α) (h : s.m_enableCompass = false ∨ s.m_compassValid = false) :
    compassStep P s pose mag d = { pose with z := s.m_fusionPose.z } := by
  unfold compassStep
  rcases h with h | h <;> simp [h]

theorem compassStep_of_enabled (P : RTMath α) (s : RTFusion α) (pose mag : RTVector3 α)
    (d : α) (hc : s.m_enableCompass = true) (hv : s.m_compassValid = true) :
    compassStep P s pose mag d =
      { pose with z := -P.atan2 (rotatedMag P pose mag).y (rotatedMag P pose mag).x - d } := by
  unfold compassStep
  simp [hc, hv]

end Lemmas

/-! ## The claims on `calculatePose` -/

section Claims

variable {α : Type} [LinearOrderedField α]

/-- C1: sign continuity of `calculatePose`.  The call returns; the measured quaternion
after it has a largest-magnitude component, and at the index `k` of that component (the
first such index) the measured and the fused quaternion never have strictly opposite
signs: the product of the two components is non-negative. -/
theorem calculatePose_sign_continuity (P : RTMath α) (s : RTFusion α)
    (accel mag : RTVector3 α) (magDeclination : α) :
    ∃ s1, calculatePose P s accel mag magDeclination = some s1 ∧
      (∃ k, IsLargestIndex s1.m_measuredQPose k) ∧
      ∀ k dm df, IsLargestIndex s1.m_measuredQPose k →
        s1.m_measuredQPose.data k = some dm → s1.m_fusionQPose.data k = some df →
        0 ≤ dm * df := by
  obtain ⟨k0, dm0, df0, hL, hdm, hdf, ⟨ho, h⟩ | ⟨hno, h⟩⟩ :=
    calculatePose_cases P s accel mag magDeclination
  · refine ⟨_, h, ⟨k0, (isLargestIndex_negate _ _).mpr hL⟩, ?_⟩
    intro k dm df hk hm hf
    have hkk : k = k0 := isLargestIndex_unique _ _ _ ((isLargestIndex_negate _ _).mp hk) hL
    subst hkk
    simp only [data_negate, hdm, Option.map_some', Option.some.injEq] at hm
    simp only [hdf, Option.some.injEq] at hf
    subst hm hf
    exact neg_mul_nonneg_of_oppositeSigns _ _ ho
  · refine ⟨_, h, ⟨k0, hL⟩, ?_⟩
    intro k dm df hk hm hf
    have hkk : k = k0 := isLargestIndex_unique _ _ _ hk hL
    subst hkk
    simp only [hdm, Option.some.injEq] at hm
    simp only [hdf, Option.some.injEq] at hf
    subst hm hf
    exact mul_nonneg_of_not_oppositeSigns _ _ hno

/-- C2: sign-aliasing correction of `calculatePose`.  With `q0` the quaternion that
`fromEuler` gives for the pose of the accel and compass steps (not the zero quaternion:
`fromEuler` yields a rotation), and `k` the index of its largest-magnitude component,
the call returns, its `m_measuredQPose` is `q0` with all four components negated if and
only if `q0.data k` and `m_fusionQPose.data k` are both non-zero with opposite signs,
and it is `q0` unchanged in every other case. -/
theorem calculatePose_sign_aliasing (P : RTMath α) (s : RTFusion α)
    (accel mag : RTVector3 α) (magDeclination : α)
    (hq0 : P.fromEuler (poseBeforeAlias P s accel mag magDeclination) ≠ ⟨0, 0, 0, 0⟩) :
    ∃ s1 k dm df, calculatePose P s accel mag magDeclination = some s1 ∧
      IsLargestIndex (P.fromEuler (poseBeforeAlias P s accel mag magDeclination)) k ∧
      (P.fromEuler (poseBeforeAlias P s accel mag magDeclination)).data k = some dm ∧
      s.m_fusionQPose.data k = some df ∧
      (s1.m_measuredQPose =
          (P.fromEuler (poseBeforeAlias P s accel mag magDeclination)).negate ↔
        OppositeSigns dm df) ∧
      (¬ OppositeSigns dm df →
        s1.m_measuredQPose = P.fromEuler (poseBeforeAlias P s accel mag magDeclination)) := by
  obtain ⟨k0, dm0, df0, hL, hdm, hdf, ⟨ho, h⟩ | ⟨hno, h⟩⟩ :=
    calculatePose_cases P s accel mag magDeclination
  · exact ⟨_, k0, dm0, df0, h, hL, hdm, hdf, ⟨fun _ => ho, fun _ => rfl⟩,
      fun hno => absurd ho hno⟩
  · refine ⟨_, k0, dm0, df0, h, hL, hdm, hdf, ⟨fun heq => ?_, fun ho => absurd ho hno⟩,
      fun _ => rfl⟩
    exact absurd ((negate_eq_self_iff _).mp heq.symm) hq0

/-- Witness of C2: a level measurement against a fused quaternion of the opposite sign. -/
theorem calculatePose_sign_aliasing_witness :
    exampleMath.fromEuler
        (poseBeforeAlias exampleMath { levelState with m_fusionQPose := ⟨-1, 0, 0, 0⟩ }
          ⟨0, 0, 1⟩ ⟨1, 0, 0⟩ 0) ≠ ⟨0, 0, 0, 0⟩ ∧
      ∃ s1 k dm df,
        calculatePose exampleMath { levelState with m_fusionQPose := ⟨-1, 0, 0, 0⟩ }
          ⟨0, 0, 1⟩ ⟨1, 0, 0⟩ 0 = some s1 ∧
        IsLargestIndex (exampleMath.fromEuler
          (poseBeforeAlias exampleMath { levelState with m_fusionQPose := ⟨-1, 0, 0, 0⟩ }
            ⟨0, 0, 1⟩ ⟨1, 0, 0⟩ 0)) k ∧
        (exampleMath.fromEuler
          (poseBeforeAlias exampleMath { levelState with m_fusionQPose := ⟨-1, 0, 0, 0⟩ }
            ⟨0, 0, 1⟩ ⟨1, 0, 0⟩ 0)).data k = some dm ∧
        ({ levelState with m_fusionQPose := ⟨-1, 0, 0, 0⟩ } : RTFusion ℚ).m_fusionQPose.data k
          = some df ∧
        (s1.m_measuredQPose = (exampleMath.fromEuler
            (poseBeforeAlias exampleMath { levelState with m_fusionQPose := ⟨-1, 0, 0, 0⟩ }
              ⟨0, 0, 1⟩ ⟨1, 0, 0⟩ 0)).negate ↔ OppositeSigns dm df) ∧
        (¬ OppositeSigns dm df →
          s1.m_measuredQPose = exampleMath.fromEuler
            (poseBeforeAlias exampleMath { levelState with m_fusionQPose := ⟨-1, 0, 0, 0⟩ }
              ⟨0, 0, 1⟩ ⟨1, 0, 0⟩ 0)) :=
  ⟨by norm_num [poseBeforeAlias, compassStep, accelStep, exampleMath, levelState],
   calculatePose_sign_aliasing exampleMath { levelState with m_fusionQPose := ⟨-1, 0, 0, 0⟩ }
    ⟨0, 0, 1⟩ ⟨1, 0, 0⟩ 0
    (by norm_num [poseBeforeAlias, compassStep, accelStep, exampleMath, levelState])⟩

/-- C3: heading formula of `calculatePose`.  With compass fusion enabled and a valid
compass, the yaw of the measured pose before the sign-aliasing step is
`-atan2(m.y, m.x) - magDeclination`, where `m = q * (0, mag) * conjugate(q)` (Hamilton
products, in either grouping) and `q = fromEuler p`, with `p` the pose of the accel
step: `accelToEuler accel`, or the fused roll and pitch with yaw 0 when accel fusion is
disabled. -/
theorem calculatePose_heading (P : RTMath α) (s : RTFusion α)
    (accel mag : RTVector3 α) (magDeclination : α)
    (hc : s.m_enableCompass = true) (hv : s.m_compassValid = true) :
    let p : RTVector3 α :=
      if s.m_enableAccel = true then P.accelToEuler accel
      else ⟨s.m_fusionPose.x, s.m_fusionPose.y, 0⟩
    let q := P.fromEuler p
    let m := (q.mul ⟨0, mag.x, mag.y, mag.z⟩).mul q.conjugate
    (poseBeforeAlias P s accel mag magDeclination).z = -P.atan2 m.y m.x - magDeclination ∧
      m = q.mul ((⟨0, mag.x, mag.y, mag.z⟩ : RTQuaternion α).mul q.conjugate) := by
  intro p q m
  refine ⟨?_, hamilton_mul_assoc _ _ _⟩
  have hp : accelStep P s accel = p := by
    simp only [accelStep, p]
  simp only [poseBeforeAlias, compassStep_of_enabled P s _ mag magDeclination hc hv, hp]
  rfl

/-- Witness of C3: the level engine with a compass reading along x and no declination has
measured yaw `-atan2 0 1 - 0`. -/
theorem calculatePose_heading_witness :
    levelState.m_enableCompass = true ∧ levelState.m_compassValid = true ∧
      (poseBeforeAlias exampleMath levelState ⟨0, 0, 1⟩ ⟨1, 0, 0⟩ 0).z
        = -exampleMath.atan2 0 1 - 0 :=
  ⟨rfl, rfl,
    ((calculatePose_heading exampleMath levelState ⟨0, 0, 1⟩ ⟨1, 0, 0⟩ 0 rfl rfl).1.trans
      (by norm_num [exampleMath]))⟩

/-- C6: compass noninterference of `calculatePose`.  With compass fusion disabled or the
compass invalid, two calls from the same state with the same accel and arbitrary mag
vectors and declinations both return, with identical `m_measuredPose` and
`m_measuredQPose`. -/
theorem calculatePose_compass_noninterference (P : RTMath α) (s : RTFusion α)
    (accel mag1 mag2 : RTVector3 α) (decl1 decl2 : α)
    (h : s.m_enableCompass = false ∨ s.m_compassValid = false) :
    ∃ s1 s2, calculatePose P s accel mag1 decl1 = some s1 ∧
      calculatePose P s accel mag2 decl2 = some s2 ∧
      s1.m_measuredPose = s2.m_measuredPose ∧ s1.m_measuredQPose = s2.m_measuredQPose := by
  have hp : poseBeforeAlias P s accel mag1 decl1 = poseBeforeAlias P s accel mag2 decl2 := by
    simp only [poseBeforeAlias, compassStep_of_disabled P s _ _ _ h]
  have hc : calculatePose P s accel mag1 decl1 = calculatePose P s accel mag2 decl2 := by
    simp only [calculatePose, hp]
  obtain ⟨k, dm, df, -, -, -, ⟨-, hcall⟩ | ⟨-, hcall⟩⟩ :=
    calculatePose_cases P s accel mag2 decl2
  · exact ⟨_, _, hc.trans hcall, hcall, rfl, rfl⟩
  · exact ⟨_, _, hc.trans hcall, hcall, rfl, rfl⟩

/-- Witness of C6: the level engine with an invalid compass, two different compass
readings and declinations. -/
theorem calculatePose_compass_noninterference_witness :
    (({ levelState with m_compassValid := false } : RTFusion ℚ).m_enableCompass = false ∨
      ({ levelState with m_compassValid := false } : RTFusion ℚ).m_compassValid = false) ∧
    ∃ s1 s2,
      calculatePose exampleMath { levelState with m_compassValid := false }
        ⟨0, 0, 1⟩ ⟨1, 0, 0⟩ 0 = some s1 ∧
      calculatePose exampleMath { levelState with m_compassValid := false }
        ⟨0, 0, 1⟩ ⟨0, 7, 2⟩ 3 = some s2 ∧
      s1.m_measuredPose = s2.m_measuredPose ∧ s1.m_measuredQPose = s2.m_measuredQPose :=
  ⟨Or.inr rfl,
    calculatePose_compass_noninterference exampleMath
      { levelState with m_compassValid := false } ⟨0, 0, 1⟩ ⟨1, 0, 0⟩ ⟨0, 7, 2⟩ 0 3
      (Or.inr rfl)⟩

/-- C7: the measured orientation does not depend on the filter state.  Two engine states
that both have accel and compass fusion enabled and a valid compass, and are otherwise
arbitrary, give for the same accel, mag and declination measured quaternions that are
equal or exact negations of each other. -/
theorem calculatePose_filter_state_independent (P : RTMath α) (s1 s2 : RTFusion α)
    (accel mag : RTVector3 α) (magDeclination : α)
    (ha1 : s1.m_enableAccel = true) (hc1 : s1.m_enableCompass = true)
    (hv1 : s1.m_compassValid = true)
    (ha2 : s2.m_enableAccel = true) (hc2 : s2.m_enableCompass = true)
    (hv2 : s2.m_compassValid = true) :
    ∃ t1 t2, calculatePose P s1 accel mag magDeclination = some t1 ∧
      calculatePose P s2 accel mag magDeclination = some t2 ∧
      (t1.m_measuredQPose = t2.m_measuredQPose ∨
        t1.m_measuredQPose = t2.m_measuredQPose.negate) := by
  have hp : poseBeforeAlias P s1 accel mag magDeclination
      = poseBeforeAlias P s2 accel mag magDeclination := by
    simp only [poseBeforeAlias, compassStep_of_enabled P s1 _ mag magDeclination hc1 hv1,
      compassStep_of_enabled P s2 _ mag magDeclination hc2 hv2, accelStep, ha1, ha2, if_true]
  obtain ⟨k1, dm1, df1, -, -, -, ⟨-, hcall1⟩ | ⟨-, hcall1⟩⟩ :=
    calculatePose_cases P s1 accel mag magDeclination <;>
  obtain ⟨k2, dm2, df2, -, -, -, ⟨-, hcall2⟩ | ⟨-, hcall2⟩⟩ :=
    calculatePose_cases P s2 accel mag magDeclination <;>
  refine ⟨_, _, hcall1, hcall2, ?_⟩ <;> simp only [hp, negate_negate, true_or, or_true]

/-- Witness of C7: the level engine and an engine whose fused pose and quaternion differ. -/
theorem calculatePose_filter_state_independent_witness :
    levelState.m_enableAccel = true ∧ levelState.m_enableCompass = true ∧
    levelState.m_compassValid = true ∧
    ∃ t1 t2,
      calculatePose exampleMath levelState ⟨0, 0, 1⟩ ⟨1, 0, 0⟩ 0 = some t1 ∧
      calculatePose exampleMath
        { levelState with m_fusionPose := ⟨1, 2, 3⟩, m_fusionQPose := ⟨-1, 0, 0, 0⟩ }
        ⟨0, 0, 1⟩ ⟨1, 0, 0⟩ 0 = some t2 ∧
      (t1.m_measuredQPose = t2.m_measuredQPose ∨
        t1.m_measuredQPose = t2.m_measuredQPose.negate) :=
  ⟨rfl, rfl, rfl,
    calculatePose_filter_state_independent exampleMath levelState
      { levelState with m_fusionPose := ⟨1, 2, 3⟩, m_fusionQPose := ⟨-1, 0, 0, 0⟩ }
      ⟨0, 0, 1⟩ ⟨1, 0, 0⟩ 0 rfl rfl rfl rfl rfl rfl⟩

/-- C8: frame condition of `calculatePose`.  For every state and input the call returns
and changes only `m_measuredPose` and `m_measuredQPose`: the fused pose and quaternion,
`m_compassValid`, `m_firstTime`, `m_slerpPower`, `m_debug` and the three enable flags
are as before. -/
theorem calculatePose_frame (P : RTMath α) (s : RTFusion α)
    (accel mag : RTVector3 α) (magDeclination : α) :
    ∃ s1, calculatePose P s accel mag magDeclination = some s1 ∧
      s1.m_fusionPose = s.m_fusionPose ∧ s1.m_fusionQPose = s.m_fusionQPose ∧
      s1.m_compassValid = s.m_compassValid ∧ s1.m_firstTime = s.m_firstTime ∧
      s1.m_slerpPower = s.m_slerpPower ∧ s1.m_debug = s.m_debug ∧
      s1.m_enableGyro = s.m_enableGyro ∧ s1.m_enableAccel = s.m_enableAccel ∧
      s1.m_enableCompass = s.m_enableCompass := by
  obtain ⟨k, dm, df, -, -, -, ⟨-, hcall⟩ | ⟨-, hcall⟩⟩ :=
    calculatePose_cases P s accel mag magDeclination
  · exact ⟨_, hcall, rfl, rfl, rfl, rfl, rfl, rfl, rfl, rfl, rfl⟩
  · exact ⟨_, hcall, rfl, rfl, rfl, rfl, rfl, rfl, rfl, rfl, rfl⟩

/-- C9: the measured pose is transient.  Two states that differ only in the previous
`m_measuredPose` and `m_measuredQPose` both return, with identical `m_measuredPose` and
`m_measuredQPose`, for the same accel, mag and declination, whatever the enable
flags. -/
theorem calculatePose_measured_transient (P : RTMath α) (s : RTFusion α)
    (prevPose : RTVector3 α) (prevQPose : RTQuaternion α)
    (accel mag : RTVector3 α) (magDeclination : α) :
    ∃ s1 s2, calculatePose P s accel mag magDeclination = some s1 ∧
      calculatePose P { s with m_measuredPose := prevPose, m_measuredQPose := prevQPose }
        accel mag magDeclination = some s2 ∧
      s1.m_measuredPose = s2.m_measuredPose ∧ s1.m_measuredQPose = s2.m_measuredQPose := by
  have hc : calculatePose P { s with m_measuredPose := prevPose, m_measuredQPose := prevQPose }
      accel mag magDeclination = calculatePose P s accel mag magDeclination := by
    simp only [calculatePose, poseBeforeAlias, compassStep, accelStep, aliasStep, rotatedMag]
  obtain ⟨k, dm, df, -, -, -, ⟨-, hcall⟩ | ⟨-, hcall⟩⟩ :=
    calculatePose_cases P s accel mag magDeclination
  · exact ⟨_, _, hcall, hc.trans hcall, rfl, rfl⟩
  · exact ⟨_, _, hcall, hc.trans hcall, rfl, rfl⟩

end Claims

/-! ## The claims on `getAccelResiduals` -/

section ResidualClaims

variable {α : Type} [CommRing α]

/-- C10: `getAccelResiduals` returns `g - a`, the componentwise negation of `a - g`, where `g`
is the vector part of `conjugate(q) * ((0,0,0,1) * q)` with the Hamilton product and
`q = m_fusionQPose`; for `q = (1,0,0,0)` and `a = (0,0,1)` it is the zero vector. -/
theorem getAccelResiduals_spec (s : RTFusion α) (accel : RTVector3 α) :
    getAccelResiduals s accel =
      ⟨(s.m_fusionQPose.conjugate.mul
          ((⟨0, 0, 0, 1⟩ : RTQuaternion α).mul s.m_fusionQPose)).x - accel.x,
        (s.m_fusionQPose.conjugate.mul
          ((⟨0, 0, 0, 1⟩ : RTQuaternion α).mul s.m_fusionQPose)).y - accel.y,
        (s.m_fusionQPose.conjugate.mul
          ((⟨0, 0, 0, 1⟩ : RTQuaternion α).mul s.m_fusionQPose)).z - accel.z⟩ ∧
    getAccelResiduals { s with m_fusionQPose := ⟨1, 0, 0, 0⟩ } ⟨0, 0, 1⟩ = ⟨0, 0, 0⟩ := by
  constructor
  · simp only [getAccelResiduals, rotatedGravity, neg_sub]
  · simp [getAccelResiduals, rotatedGravity, RTQuaternion.mul, RTQuaternion.conjugate]

end ResidualClaims

/-! ## The claims on `getAccelGlobalFrame` and on the two utilities as calls -/

section GlobalFrameClaims

variable {α : Type} [CommRing α]

/-- C11: `getAccelGlobalFrame` returns the vector part of `q * (0, a) * conjugate(q)` with
the Hamilton product (in either grouping) and `q = m_fusionQPose`; for `q = (1,0,0,0)` the
result is `a`. -/
theorem getAccelGlobalFrame_spec (s : RTFusion α) (accel : RTVector3 α) :
    getAccelGlobalFrame s accel =
      ⟨((s.m_fusionQPose.mul ⟨0, accel.x, accel.y, accel.z⟩).mul
          s.m_fusionQPose.conjugate).x,
        ((s.m_fusionQPose.mul ⟨0, accel.x, accel.y, accel.z⟩).mul
          s.m_fusionQPose.conjugate).y,
        ((s.m_fusionQPose.mul ⟨0, accel.x, accel.y, accel.z⟩).mul
          s.m_fusionQPose.conjugate).z⟩ ∧
    (s.m_fusionQPose.mul ⟨0, accel.x, accel.y, accel.z⟩).mul s.m_fusionQPose.conjugate =
      s.m_fusionQPose.mul
        ((⟨0, accel.x, accel.y, accel.z⟩ : RTQuaternion α).mul s.m_fusionQPose.conjugate) ∧
    getAccelGlobalFrame { s with m_fusionQPose := ⟨1, 0, 0, 0⟩ } accel = accel := by
  refine ⟨?_, ?_, ?_⟩
  · simp only [getAccelGlobalFrame, rotatedAccel, RTQuaternion.mul, RTQuaternion.conjugate,
      RTVector3.mk.injEq]
    refine ⟨by ring, by ring, by ring⟩
  · simp only [RTQuaternion.mul, RTQuaternion.conjugate, RTQuaternion.mk.injEq]
    refine ⟨by ring, by ring, by ring, by ring⟩
  · simp [getAccelGlobalFrame, rotatedAccel, RTQuaternion.mul, RTQuaternion.conjugate]

end GlobalFrameClaims

section ReadOnlyClaims

variable {α : Type} [LinearOrderedField α]

/-- C12: `getAccelResiduals` and `getAccelGlobalFrame` are read-only.  The engine state after
either call is the state before it, so every member is unchanged; a repeated call with
the same accel returns the same vector; and `calculatePose` run after any interleaving
of the two calls gives what it gives without them. -/
theorem accel_utilities_read_only (P : RTMath α) (s : RTFusion α)
    (a accel mag : RTVector3 α) (magDeclination : α) :
    (getAccelResidualsCall s a).2 = s ∧ (getAccelGlobalFrameCall s a).2 = s ∧
    (getAccelResidualsCall (getAccelResidualsCall s a).2 a).1 = (getAccelResidualsCall s a).1 ∧
    (getAccelGlobalFrameCall (getAccelGlobalFrameCall s a).2 a).1
      = (getAccelGlobalFrameCall s a).1 ∧
    (getAccelResidualsCall (getAccelGlobalFrameCall s a).2 a).1
      = (getAccelResidualsCall s a).1 ∧
    (getAccelGlobalFrameCall (getAccelResidualsCall s a).2 a).1
      = (getAccelGlobalFrameCall s a).1 ∧
    calculatePose P (getAccelGlobalFrameCall (getAccelResidualsCall s a).2 a).2
      accel mag magDeclination = calculatePose P s accel mag magDeclination ∧
    ∃ s1, calculatePose P s accel mag magDeclination = some s1 ∧
      (getAccelResidualsCall s1 a).2 = s1 ∧ (getAccelGlobalFrameCall s1 a).2 = s1 := by
  refine ⟨rfl, rfl, rfl, rfl, rfl, rfl, rfl, ?_⟩
  obtain ⟨k, dm, df, -, -, -, ⟨-, hcall⟩ | ⟨-, hcall⟩⟩ :=
    calculatePose_cases P s accel mag magDeclination
  · exact ⟨_, hcall, rfl, rfl⟩
  · exact ⟨_, hcall, rfl, rfl⟩

/-- C17: Euler re-derivation in `calculatePose`.  The call returns; when the sign-aliasing
step negates, the final `m_measuredPose` is `toEuler` of the negated quaternion, which
is the final `m_measuredQPose`; when it does not negate, `m_measuredPose` is the pose of
the accel and compass steps and `m_measuredQPose` is `fromEuler` of it.  In both cases
the final pose and quaternion are linked by a conversion, one being the conversion of
the other. -/
theorem calculatePose_euler_rederivation (P : RTMath α) (s : RTFusion α)
    (accel mag : RTVector3 α) (magDeclination : α) :
    ∃ s1 k dm df, calculatePose P s accel mag magDeclination = some s1 ∧
      IsLargestIndex (P.fromEuler (poseBeforeAlias P s accel mag magDeclination)) k ∧
      (P.fromEuler (poseBeforeAlias P s accel mag magDeclination)).data k = some dm ∧
      s.m_fusionQPose.data k = some df ∧
      (OppositeSigns dm df →
        s1.m_measuredQPose =
            (P.fromEuler (poseBeforeAlias P s accel mag magDeclination)).negate ∧
          s1.m_measuredPose =
            P.toEuler (P.fromEuler (poseBeforeAlias P s accel mag magDeclination)).negate) ∧
      (¬ OppositeSigns dm df →
        s1.m_measuredQPose = P.fromEuler (poseBeforeAlias P s accel mag magDeclination) ∧
          s1.m_measuredPose = poseBeforeAlias P s accel mag magDeclination) ∧
      (s1.m_measuredPose = P.toEuler s1.m_measuredQPose ∨
        s1.m_measuredQPose = P.fromEuler s1.m_measuredPose) := by
  obtain ⟨k, dm, df, hL, hdm, hdf, ⟨ho, hcall⟩ | ⟨hno, hcall⟩⟩ :=
    calculatePose_cases P s accel mag magDeclination
  · exact ⟨_, k, dm, df, hcall, hL, hdm, hdf, fun _ => ⟨rfl, rfl⟩,
      fun hno => absurd ho hno, Or.inl rfl⟩
  · exact ⟨_, k, dm, df, hcall, hL, hdm, hdf, fun ho => absurd ho hno,
      fun _ => ⟨rfl, rfl⟩, Or.inr rfl⟩

/-- C20: initial configuration of a newly constructed `RTFusion`.  Whatever the members
hold when the constructor body starts, after it `m_firstTime` is true, gyro, accel and
compass fusion are enabled, `m_debug` is false, and `m_slerpPower` is 0.02 (that is
2/100), which lies in `[0,1]`. -/
theorem construct_initial_configuration (members : RTFusion α) :
    (RTFusion.construct members).m_firstTime = true ∧
    (RTFusion.construct members).m_enableGyro = true ∧
    (RTFusion.construct members).m_enableAccel = true ∧
    (RTFusion.construct members).m_enableCompass = true ∧
    (RTFusion.construct members).m_debug = false ∧
    (RTFusion.construct members).m_slerpPower = 2 / 100 ∧
    0 ≤ (RTFusion.construct members).m_slerpPower ∧
    (RTFusion.construct members).m_slerpPower ≤ 1 := by
  refine ⟨rfl, rfl, rfl, rfl, rfl, ?_, ?_, ?_⟩ <;>
    simp only [RTFusion.construct, RTQF_SLERP_POWER] <;> norm_num

end ReadOnlyClaims

/-! ## Lemmas on the RTQF cycle -/

section RTQFLemmas

variable {α : Type} [LinearOrderedField α]

theorem normSq_mul (a b : RTQuaternion α) : normSq (a.mul b) = normSq a * normSq b := by
  simp only [normSq, RTQuaternion.mul]
  ring

theorem normSq_negate (q : RTQuaternion α) : normSq q.negate = normSq q := by
  simp only [normSq, RTQuaternion.negate]
  ring

theorem normSq_zero : normSq (⟨0, 0, 0, 0⟩ : RTQuaternion α) = 0 := by
  simp [normSq]

theorem normSq_pos_of_ne_zero (q : RTQuaternion α) (h : q ≠ ⟨0, 0, 0, 0⟩) : 0 < normSq q := by
  obtain ⟨w, x, y, z⟩ := q
  have h0 := mul_self_nonneg w
  have h1 := mul_self_nonneg x
  have h2 := mul_self_nonneg y
  have h3 := mul_self_nonneg z
  simp only [normSq]
  rcases lt_or_eq_of_le (show 0 ≤ w * w + x * x + y * y + z * z by linarith) with hpos | hzero
  · exact hpos
  · exfalso
    apply h
    have e0 : w = 0 := mul_self_eq_zero.mp (by linarith)
    have e1 : x = 0 := mul_self_eq_zero.mp (by linarith)
    have e2 : y = 0 := mul_self_eq_zero.mp (by linarith)
    have e3 : z = 0 := mul_self_eq_zero.mp (by linarith)
    rw [e0, e1, e2, e3]

theorem ne_zero_of_normSq_pos (q : RTQuaternion α) (h : 0 < normSq q) :
    q ≠ ⟨0, 0, 0, 0⟩ := by
  intro hq
  rw [hq, normSq_zero] at h
  exact lt_irrefl _ h

theorem mul_ne_zero_of_unit (a b : RTQuaternion α) (ha : normSq a = 1)
    (hb : b ≠ ⟨0, 0, 0, 0⟩) : a.mul b ≠ ⟨0, 0, 0, 0⟩ := by
  apply ne_zero_of_normSq_pos
  rw [normSq_mul, ha, one_mul]
  exact normSq_pos_of_ne_zero b hb

theorem mul_identity (a : RTQuaternion α) : a.mul ⟨1, 0, 0, 0⟩ = a := by
  cases a
  simp [RTQuaternion.mul]

theorem mul_conjugate_mul (a m : RTQuaternion α) (ha : normSq a = 1) :
    a.mul (a.conjugate.mul m) = m := by
  have key : a.mul (a.conjugate.mul m) =
      ⟨normSq a * m.scalar, normSq a * m.x, normSq a * m.y, normSq a * m.z⟩ := by
    simp only [RTQuaternion.mul, RTQuaternion.conjugate, normSq, RTQuaternion.mk.injEq]
    refine ⟨by ring, by ring, by ring, by ring⟩
  rw [key, ha]
  cases m
  simp

theorem measure_spec (M : RTQFMath α) (s : RTFusionRTQF α) (magDeclination : α) :
    ∃ pose q, s.measure M magDeclination =
        some { s with
          toRTFusion := { s.toRTFusion with m_measuredPose := pose, m_measuredQPose := q } } ∧
      (q = M.fromEuler
            (poseBeforeAlias M.toRTMath s.toRTFusion s.m_accel s.m_compass magDeclination) ∨
        q = (M.fromEuler
            (poseBeforeAlias M.toRTMath s.toRTFusion s.m_accel s.m_compass
              magDeclination)).negate) := by
  obtain ⟨k, dm, df, -, -, -, ⟨-, hcall⟩ | ⟨-, hcall⟩⟩ :=
    calculatePose_cases M.toRTMath s.toRTFusion s.m_accel s.m_compass magDeclination
  · exact ⟨M.toEuler (M.fromEuler (poseBeforeAlias M.toRTMath s.toRTFusion s.m_accel
        s.m_compass magDeclination)).negate, _, by rw [RTFusionRTQF.measure, hcall],
      Or.inr rfl⟩
  · exact ⟨poseBeforeAlias M.toRTMath s.toRTFusion s.m_accel s.m_compass magDeclination, _,
      by rw [RTFusionRTQF.measure, hcall], Or.inl rfl⟩

theorem measure_unit (M : RTQFMath α) (hE : FromEulerUnit M.toRTMath) (s : RTFusionRTQF α)
    (magDeclination : α) :
    ∃ pose q, s.measure M magDeclination =
        some { s with
          toRTFusion := { s.toRTFusion with m_measuredPose := pose, m_measuredQPose := q } } ∧
      normSq q = 1 := by
  obtain ⟨pose, q, h, hq | hq⟩ := measure_spec M s magDeclination
  · exact ⟨pose, q, h, by rw [hq]; exact hE _⟩
  · exact ⟨pose, q, h, by rw [hq, normSq_negate]; exact hE _⟩

theorem predict_unit (M : RTQFMath α) (hN : NormalizeUnit M) (s : RTFusionRTQF α)
    (hs : normSq s.m_stateQ = 1) : normSq (s.predict M).m_stateQ = 1 := by
  unfold RTFusionRTQF.predict
  split_ifs with hg
  · apply hN
    apply mul_ne_zero_of_unit _ _ hs
    apply ne_zero_of_normSq_pos
    rw [hN _ (by simp)]
    exact one_pos
  · exact hs

theorem predict_frame (M : RTQFMath α) (s : RTFusionRTQF α) :
    (s.predict M).toRTFusion = s.toRTFusion ∧ (s.predict M).m_accel = s.m_accel ∧
      (s.predict M).m_compass = s.m_compass := by
  unfold RTFusionRTQF.predict
  split_ifs <;> exact ⟨rfl, rfl, rfl⟩

theorem predict_stateQ (M : RTQFMath α) (s : RTFusionRTQF α) :
    (s.predict M).m_stateQ =
      if s.m_enableGyro = true then
        M.normalize (s.m_stateQ.mul (M.normalize
          ⟨1, 1 / 2 * s.m_gyro.x * s.m_timeDelta, 1 / 2 * s.m_gyro.y * s.m_timeDelta,
            1 / 2 * s.m_gyro.z * s.m_timeDelta⟩))
      else s.m_stateQ := by
  unfold RTFusionRTQF.predict
  split_ifs <;> rfl

theorem newIMUData_first (M : RTQFMath α) (hE : FromEulerUnit M.toRTMath)
    (s : RTFusionRTQF α) (data : RTIMU_DATA α) (magDeclination : α)
    (hfirst : s.m_firstTime = true) :
    ∃ pose q, normSq q = 1 ∧
      s.newIMUData M data magDeclination =
        some (RTFusionRTQF.bootstrap M { s.loadSample data with
          toRTFusion := { (s.loadSample data).toRTFusion with
            m_measuredPose := pose, m_measuredQPose := q } }) := by
  obtain ⟨pose, q, h, hq⟩ := measure_unit M hE (s.loadSample data) magDeclination
  refine ⟨pose, q, hq, ?_⟩
  have hft : (s.loadSample data).m_firstTime = true := hfirst
  simp only [RTFusionRTQF.newIMUData, hft, if_true, h]

theorem newIMUData_next (M : RTQFMath α) (hE : FromEulerUnit M.toRTMath)
    (s : RTFusionRTQF α) (data : RTIMU_DATA α) (magDeclination : α)
    (hfirst : s.m_firstTime = false) :
    ∃ pose q, normSq q = 1 ∧
      ((s.loadSample data).predict M).measure M magDeclination =
        some { (s.loadSample data).predict M with
          toRTFusion := { ((s.loadSample data).predict M).toRTFusion with
            m_measuredPose := pose, m_measuredQPose := q } } ∧
      s.newIMUData M data magDeclination =
        some (RTFusionRTQF.publish M (RTFusionRTQF.update M
          { (s.loadSample data).predict M with
            toRTFusion := { ((s.loadSample data).predict M).toRTFusion with
              m_measuredPose := pose, m_measuredQPose := q } })) := by
  obtain ⟨pose, q, h, hq⟩ :=
    measure_unit M hE ((s.loadSample data).predict M) magDeclination
  refine ⟨pose, q, hq, h, ?_⟩
  have hft : (s.loadSample data).m_firstTime = false := hfirst
  simp only [RTFusionRTQF.newIMUData, hft, h]
  rfl

/-- The invariant of the RTQF cycle: past the bootstrap, `stateQ` of norm 1, published. -/
theorem newIMUData_invariant (M : RTQFMath α) (hE : FromEulerUnit M.toRTMath)
    (hN : NormalizeUnit M) (hP : RotationPowerNonzero M)
    (s : RTFusionRTQF α) (data : RTIMU_DATA α) (magDeclination : α)
    (hs : s.m_firstTime = true ∨ normSq s.m_stateQ = 1) :
    ∃ s1, s.newIMUData M data magDeclination = some s1 ∧ s1.m_firstTime = false ∧
      normSq s1.m_stateQ = 1 ∧ s1.m_fusionQPose = s1.m_stateQ := by
  by_cases hfirst : s.m_firstTime = true
  · obtain ⟨pose, q, hq, h⟩ := newIMUData_first M hE s data magDeclination hfirst
    exact ⟨_, h, rfl, hq, rfl⟩
  · have hfalse : s.m_firstTime = false := by simpa using hfirst
    have hunit : normSq s.m_stateQ = 1 := hs.resolve_left hfirst
    obtain ⟨pose, q, hq, -, h⟩ := newIMUData_next M hE s data magDeclination hfalse
    refine ⟨_, h, ?_, ?_, rfl⟩
    · have := (predict_frame M (s.loadSample data)).1
      simp only [RTFusionRTQF.publish, RTFusionRTQF.update, this]
      exact hfalse
    · have hpred : normSq ((s.loadSample data).predict M).m_stateQ = 1 :=
        predict_unit M hN (s.loadSample data) hunit
      simp only [RTFusionRTQF.publish, RTFusionRTQF.update]
      apply hN
      exact mul_ne_zero_of_unit _ _ hpred (hP _ _)

theorem runCycles_invariant (M : RTQFMath α) (hE : FromEulerUnit M.toRTMath)
    (hN : NormalizeUnit M) (hP : RotationPowerNonzero M) (magDeclination : α)
    (rest : List (RTIMU_DATA α)) :
    ∀ s : RTFusionRTQF α, normSq s.m_stateQ = 1 → s.m_fusionQPose = s.m_stateQ →
      ∃ s1, RTFusionRTQF.runCycles M magDeclination s rest = some s1 ∧
        normSq s1.m_stateQ = 1 ∧ s1.m_fusionQPose = s1.m_stateQ := by
  induction rest with
  | nil => exact fun s hs hf => ⟨s, rfl, hs, hf⟩
  | cons data rest ih =>
    intro s hs _
    obtain ⟨s1, h1, -, hu, hf⟩ :=
      newIMUData_invariant M hE hN hP s data magDeclination (Or.inr hs)
    obtain ⟨s2, h2, hu2, hf2⟩ := ih s1 hu hf
    exact ⟨s2, by simp only [RTFusionRTQF.runCycles, h1, h2], hu2, hf2⟩

theorem exampleMath_fromEulerUnit : FromEulerUnit exampleMath := by
  intro e
  simp only [exampleMath]
  split_ifs <;> norm_num [normSq]

theorem exampleQFMath_normalizeUnit : NormalizeUnit exampleQFMath := by
  intro q _
  simp only [exampleQFMath]
  split_ifs with h
  · exact h
  · norm_num [normSq]

theorem exampleQFMath_normalizeFixesUnit : NormalizeFixesUnit exampleQFMath := by
  intro q h
  simp only [exampleQFMath, h, if_true]

theorem exampleQFMath_rotationPowerNonzero : RotationPowerNonzero exampleQFMath := by
  intro q p
  simp only [exampleQFMath]
  by_cases hv : q.x = 0 ∧ q.y = 0 ∧ q.z = 0
  · simp only [hv, and_self, if_true]
    split_ifs <;> simp
  · simp only [hv, if_false]
    split_ifs
    · simp
    · intro h
      simp only [RTQuaternion.mk.injEq, true_and] at h
      exact hv h

theorem exampleQFMath_zeroAngleIdentity : ZeroAngleIdentity exampleQFMath := by
  intro u
  simp [exampleQFMath]

theorem exampleMath_levelValues : LevelValues exampleMath := by
  refine ⟨rfl, ?_, fun _ _ => rfl, rfl, rfl⟩
  norm_num [exampleMath]

theorem measure_of_calculatePose (M : RTQFMath α) (s : RTFusionRTQF α) (magDeclination : α)
    (base : RTFusion α)
    (hcall : calculatePose M.toRTMath s.toRTFusion s.m_accel s.m_compass magDeclination
      = some base) :
    s.measure M magDeclination = some { s with toRTFusion := base } := by
  rw [RTFusionRTQF.measure, hcall]

theorem newIMUData_first_of (M : RTQFMath α) (s : RTFusionRTQF α) (data : RTIMU_DATA α)
    (magDeclination : α) (hfirst : s.m_firstTime = true) (s1 : RTFusionRTQF α)
    (hm : (s.loadSample data).measure M magDeclination = some s1) :
    s.newIMUData M data magDeclination = some (s1.bootstrap M) := by
  have hft : (s.loadSample data).m_firstTime = true := hfirst
  simp only [RTFusionRTQF.newIMUData, hft, if_true, hm]

theorem newIMUData_next_of (M : RTQFMath α) (s : RTFusionRTQF α) (data : RTIMU_DATA α)
    (magDeclination : α) (hfirst : s.m_firstTime = false) (s1 : RTFusionRTQF α)
    (hm : ((s.loadSample data).predict M).measure M magDeclination = some s1) :
    s.newIMUData M data magDeclination = some ((s1.update M).publish M) := by
  have hft : (s.loadSample data).m_firstTime = false := hfirst
  simp only [RTFusionRTQF.newIMUData, hft, hm]
  rfl

theorem halfTurn_measure :
    ∃ s2, ((halfTurnFilter.loadSample levelSample).predict exampleQFMath).measure
          exampleQFMath 0 = some s2 ∧
      s2.m_stateQ = ⟨0, 1, 0, 0⟩ ∧ s2.m_measuredQPose = ⟨1, 0, 0, 0⟩ := by
  norm_num [RTFusionRTQF.measure, RTFusionRTQF.predict, RTFusionRTQF.loadSample,
    halfTurnFilter, freshFilter, levelState, levelSample, exampleQFMath, exampleMath,
    calculatePose, poseBeforeAlias, compassStep, accelStep, aliasStep, maxSearch,
    maxSearchStep, RTQuaternion.data, signsDiffer, RTQuaternion.negate, rotatedMag,
    normSq, RTQuaternion.mul, RTQuaternion.conjugate]

theorem halfTurn_recomposes (s2 : RTFusionRTQF ℚ)
    (h : ((halfTurnFilter.loadSample levelSample).predict exampleQFMath).measure
      exampleQFMath 0 = some s2) :
    Recomposes exampleQFMath (s2.m_stateQ.conjugate.mul s2.m_measuredQPose) := by
  obtain ⟨t, ht, hq, hm⟩ := halfTurn_measure
  rw [ht] at h
  cases h
  rw [hq, hm]
  norm_num [Recomposes, exampleQFMath, RTQuaternion.mul, RTQuaternion.conjugate]

theorem level_poseBeforeAlias (P : RTMath α) (hL : LevelValues P) (s : RTFusion α)
    (mx mz : α) (hmx : 0 < mx) (ha : s.m_enableAccel = true) (hc : s.m_enableCompass = true)
    (hv : s.m_compassValid = true) :
    poseBeforeAlias P s ⟨0, 0, 1⟩ ⟨mx, 0, mz⟩ 0 = ⟨0, 0, 0⟩ := by
  obtain ⟨hacc, hfrom, hatan, -, -⟩ := hL
  have hstep : accelStep P s ⟨0, 0, 1⟩ = ⟨0, 0, 0⟩ := by
    simp only [accelStep, ha, if_true, hacc]
  have hm : rotatedMag P ⟨0, 0, 0⟩ ⟨mx, 0, mz⟩ = ⟨0, mx, 0, mz⟩ := by
    simp [rotatedMag, hfrom, RTQuaternion.mul, RTQuaternion.conjugate]
  rw [poseBeforeAlias, hstep, compassStep_of_enabled P s _ _ _ hc hv, hm]
  simp [hatan mx hmx]

theorem level_calculatePose (P : RTMath α) (hL : LevelValues P) (s : RTFusion α)
    (mx mz : α) (hmx : 0 < mx) (ha : s.m_enableAccel = true) (hc : s.m_enableCompass = true)
    (hv : s.m_compassValid = true) :
    ∃ q, calculatePose P s ⟨0, 0, 1⟩ ⟨mx, 0, mz⟩ 0 =
        some { s with m_measuredPose := ⟨0, 0, 0⟩, m_measuredQPose := q } ∧
      (q = ⟨1, 0, 0, 0⟩ ∨ q = ⟨-1, 0, 0, 0⟩) := by
  have hpose := level_poseBeforeAlias P hL s mx mz hmx ha hc hv
  obtain ⟨-, hfrom, -, -, hneg⟩ := hL
  have hnegate : (⟨1, 0, 0, 0⟩ : RTQuaternion α).negate = ⟨-1, 0, 0, 0⟩ := by
    simp [RTQuaternion.negate]
  obtain ⟨k, dm, df, -, -, -, ⟨-, hcall⟩ | ⟨-, hcall⟩⟩ :=
    calculatePose_cases P s ⟨0, 0, 1⟩ ⟨mx, 0, mz⟩ 0
  · rw [hpose, hfrom, hnegate, hneg] at hcall
    exact ⟨_, hcall, Or.inr rfl⟩
  · rw [hpose, hfrom] at hcall
    exact ⟨_, hcall, Or.inl rfl⟩

theorem normSq_identity_or_neg (q : RTQuaternion α)
    (h : q = ⟨1, 0, 0, 0⟩ ∨ q = ⟨-1, 0, 0, 0⟩) : normSq q = 1 := by
  rcases h with rfl | rfl <;> simp [normSq]

theorem unit_ne_negate (a : RTQuaternion α) (ha : normSq a = 1) : a ≠ a.negate := by
  intro h
  have hzero := (negate_eq_self_iff a).mp h.symm
  rw [hzero, normSq_zero] at ha
  exact zero_ne_one ha

end RTQFLemmas

/-! ## The claims on the RTQF filter -/

section RTQFClaims

variable {α : Type} [LinearOrderedField α]

/-- C13: unit-norm invariant of the RTQF filter.  From a filter in the bootstrap state (as
constructed or reset), after every cycle of any non-empty sequence of samples the state
quaternion `m_stateQ` and the published `m_fusionQPose` both have norm 1, provided
`fromEuler` yields unit quaternions, `normalize` yields norm 1 on non-zero arguments and
the rotation power is never zero. -/
theorem rtqf_unit_norm_invariant (M : RTQFMath α) (hE : FromEulerUnit M.toRTMath)
    (hN : NormalizeUnit M) (hP : RotationPowerNonzero M) (magDeclination : α)
    (s : RTFusionRTQF α) (hfirst : s.m_firstTime = true)
    (data : RTIMU_DATA α) (rest : List (RTIMU_DATA α)) :
    ∃ s1, RTFusionRTQF.runCycles M magDeclination s (data :: rest) = some s1 ∧
      normSq s1.m_stateQ = 1 ∧ normSq s1.m_fusionQPose = 1 := by
  obtain ⟨s0, h0, -, hu0, hf0⟩ :=
    newIMUData_invariant M hE hN hP s data magDeclination (Or.inl hfirst)
  obtain ⟨s1, h1, hu1, hf1⟩ := runCycles_invariant M hE hN hP magDeclination rest s0 hu0 hf0
  exact ⟨s1, by simp only [RTFusionRTQF.runCycles, h0, h1], hu1, by rw [hf1]; exact hu1⟩

/-- Witness of C13: the example filter before its first cycle, run on two samples. -/
theorem rtqf_unit_norm_invariant_witness :
    FromEulerUnit exampleQFMath.toRTMath ∧ NormalizeUnit exampleQFMath ∧
    RotationPowerNonzero exampleQFMath ∧ freshFilter.m_firstTime = true ∧
    ∃ s1, RTFusionRTQF.runCycles exampleQFMath 0 freshFilter [levelSample, tiltedSample]
        = some s1 ∧
      normSq s1.m_stateQ = 1 ∧ normSq s1.m_fusionQPose = 1 :=
  ⟨exampleMath_fromEulerUnit, exampleQFMath_normalizeUnit,
    exampleQFMath_rotationPowerNonzero, rfl,
    rtqf_unit_norm_invariant exampleQFMath exampleMath_fromEulerUnit
      exampleQFMath_normalizeUnit exampleQFMath_rotationPowerNonzero 0 freshFilter rfl
      levelSample [tiltedSample]⟩

/-- C15: zero-gain pass-through of the RTQF filter.  With slerp power 0 and past the
bootstrap, two runs from the same state over sample lists that agree on the gyro
readings and time deltas, and are arbitrary in their accel and compass readings,
compass validity and declination, both return and publish the same `m_fusionQPose`,
provided a rotation of angle 0 is the identity quaternion. -/
theorem rtqf_zero_gain_pass_through (M : RTQFMath α)
    (hZ : ZeroAngleIdentity M) (decl1 decl2 : α)
    (samples1 samples2 : List (RTIMU_DATA α)) (hsame : SameGyro samples1 samples2)
    (s : RTFusionRTQF α) (hfirst : s.m_firstTime = false) (hpower : s.m_slerpPower = 0) :
    ∃ s1 s2, RTFusionRTQF.runCycles M decl1 s samples1 = some s1 ∧
      RTFusionRTQF.runCycles M decl2 s samples2 = some s2 ∧
      s1.m_fusionQPose = s2.m_fusionQPose := by
  suffices key : ∀ (xs ys : List (RTIMU_DATA α)), SameGyro xs ys →
      ∀ s t : RTFusionRTQF α, s.m_firstTime = false → t.m_firstTime = false →
        s.m_slerpPower = 0 → t.m_slerpPower = 0 → s.m_stateQ = t.m_stateQ →
        s.m_enableGyro = t.m_enableGyro → s.m_fusionQPose = t.m_fusionQPose →
        ∃ s1 t1, RTFusionRTQF.runCycles M decl1 s xs = some s1 ∧
          RTFusionRTQF.runCycles M decl2 t ys = some t1 ∧
          s1.m_fusionQPose = t1.m_fusionQPose from
    key samples1 samples2 hsame s s hfirst hfirst hpower hpower rfl rfl rfl
  intro xs
  induction xs with
  | nil =>
    intro ys hxy s t _ _ _ _ _ _ hf
    cases ys with
    | nil => exact ⟨s, t, rfl, rfl, hf⟩
    | cons b bs => exact absurd hxy (by simp [SameGyro])
  | cons a as ih =>
    intro ys hxy s t hs ht hps hpt hq hg _
    cases ys with
    | nil => exact absurd hxy (by simp [SameGyro])
    | cons b bs =>
      obtain ⟨hgy, hdt, hrest⟩ := hxy
      obtain ⟨pose1, q1, hm1, -⟩ := measure_spec M ((s.loadSample a).predict M) decl1
      obtain ⟨pose2, q2, hm2, -⟩ := measure_spec M ((t.loadSample b).predict M) decl2
      have h1 := newIMUData_next_of M s a decl1 hs _ hm1
      have h2 := newIMUData_next_of M t b decl2 ht _ hm2
      have hf1 := (predict_frame M (s.loadSample a)).1
      have hf2 := (predict_frame M (t.loadSample b)).1
      have hp1 : ((s.loadSample a).predict M).m_slerpPower = 0 := by rw [hf1]; exact hps
      have hp2 : ((t.loadSample b).predict M).m_slerpPower = 0 := by rw [hf2]; exact hpt
      have hpq : ((s.loadSample a).predict M).m_stateQ
          = ((t.loadSample b).predict M).m_stateQ := by
        have e1 : (s.loadSample a).m_enableGyro = (t.loadSample b).m_enableGyro := hg
        have e2 : (s.loadSample a).m_stateQ = (t.loadSample b).m_stateQ := hq
        have e3 : (s.loadSample a).m_gyro = (t.loadSample b).m_gyro := hgy
        have e4 : (s.loadSample a).m_timeDelta = (t.loadSample b).m_timeDelta := hdt
        rw [predict_stateQ, predict_stateQ, e1, e2, e3, e4]
      have hstate : (RTFusionRTQF.publish M (RTFusionRTQF.update M
            { (s.loadSample a).predict M with
              toRTFusion := { ((s.loadSample a).predict M).toRTFusion with
                m_measuredPose := pose1, m_measuredQPose := q1 } })).m_stateQ
          = (RTFusionRTQF.publish M (RTFusionRTQF.update M
            { (t.loadSample b).predict M with
              toRTFusion := { ((t.loadSample b).predict M).toRTFusion with
                m_measuredPose := pose2, m_measuredQPose := q2 } })).m_stateQ := by
        simp only [RTFusionRTQF.publish, RTFusionRTQF.update, hp1, hp2, mul_zero, hZ _,
          mul_identity, hpq]
      obtain ⟨s1, t1, hr1, hr2, hfin⟩ := ih bs hrest _ _
        (by simp only [RTFusionRTQF.publish, RTFusionRTQF.update, hf1]; exact hs)
        (by simp only [RTFusionRTQF.publish, RTFusionRTQF.update, hf2]; exact ht)
        (by simp only [RTFusionRTQF.publish, RTFusionRTQF.update, hf1]; exact hps)
        (by simp only [RTFusionRTQF.publish, RTFusionRTQF.update, hf2]; exact hpt)
        hstate
        (by simp only [RTFusionRTQF.publish, RTFusionRTQF.update, hf1, hf2]; exact hg)
        hstate
      exact ⟨s1, t1, by simp only [RTFusionRTQF.runCycles, h1, hr1],
        by simp only [RTFusionRTQF.runCycles, h2, hr2], hfin⟩

/-- Witness of C15: the example filter with slerp power 0 on two samples that share the gyro
reading and time delta and differ in accel, compass and compass validity. -/
theorem rtqf_zero_gain_pass_through_witness :
    ZeroAngleIdentity exampleQFMath ∧
    SameGyro [levelSample] [tiltedSample] ∧ gyroOnlyFilter.m_firstTime = false ∧
    gyroOnlyFilter.m_slerpPower = 0 ∧
    ∃ s1 s2, RTFusionRTQF.runCycles exampleQFMath 0 gyroOnlyFilter [levelSample] = some s1 ∧
      RTFusionRTQF.runCycles exampleQFMath 3 gyroOnlyFilter [tiltedSample] = some s2 ∧
      s1.m_fusionQPose = s2.m_fusionQPose :=
  ⟨exampleQFMath_zeroAngleIdentity, ⟨rfl, rfl, trivial⟩, rfl, rfl,
    rtqf_zero_gain_pass_through exampleQFMath
      exampleQFMath_zeroAngleIdentity 0 3 [levelSample] [tiltedSample] ⟨rfl, rfl, trivial⟩
      gyroOnlyFilter rfl rfl⟩

/-- C16: `RTFusionRTQF::reset` keeps the configuration.  After `reset` the gyro, accel and
compass enable flags and the slerp power are as before the call, and the filter is in
the bootstrap state: `m_firstTime` is true, and the next cycle returns with the state
and fused quaternions seeded from the measured one and the flag cleared. -/
theorem reset_keeps_configuration (M : RTQFMath α) (s : RTFusionRTQF α)
    (data : RTIMU_DATA α) (magDeclination : α) :
    s.reset.m_enableGyro = s.m_enableGyro ∧ s.reset.m_enableAccel = s.m_enableAccel ∧
    s.reset.m_enableCompass = s.m_enableCompass ∧ s.reset.m_slerpPower = s.m_slerpPower ∧
    s.reset.m_firstTime = true ∧
    ∃ s1, s.reset.newIMUData M data magDeclination = some s1 ∧
      s1.m_stateQ = s1.m_measuredQPose ∧ s1.m_fusionQPose = s1.m_measuredQPose ∧
      s1.m_firstTime = false := by
  refine ⟨rfl, rfl, rfl, rfl, rfl, ?_⟩
  obtain ⟨pose, q, h, -⟩ := measure_spec M (s.reset.loadSample data) magDeclination
  exact ⟨_, newIMUData_first_of M s.reset data magDeclination rfl _ h, rfl, rfl, rfl⟩

/-- C19: level-attitude scenario.  With accel `(0,0,1)`, a compass reading along positive x
with zero y, declination 0 and accel and compass fusion enabled and valid,
`calculatePose` returns with measured roll, pitch and yaw 0 and `m_measuredQPose` equal
to `(1,0,0,0)` up to sign; and one cycle of the filter with slerp power 1 on that sample
with gyro `(0,0,0)` returns with the level fused pose `(0,0,0)` and the fused quaternion
`(1,0,0,0)` up to sign.  The absent conversions are taken at their level values,
`normalize` leaves unit quaternions as they are, and past the bootstrap the prior state
quaternion has norm 1 and the decomposition of the cycle's rotation delta is exact. -/
theorem level_attitude_scenario (M : RTQFMath α) (hL : LevelValues M.toRTMath)
    (hF : NormalizeFixesUnit M) (mx mz dt : α) (hmx : 0 < mx)
    (s : RTFusion α) (ha : s.m_enableAccel = true) (hc : s.m_enableCompass = true)
    (hv : s.m_compassValid = true)
    (r : RTFusionRTQF α) (hra : r.m_enableAccel = true) (hrc : r.m_enableCompass = true)
    (hpower : r.m_slerpPower = 1)
    (hstate : r.m_firstTime = true ∨ normSq r.m_stateQ = 1)
    (hD : ∀ s2,
      ((r.loadSample ⟨⟨0, 0, 0⟩, true, ⟨0, 0, 1⟩, true, ⟨mx, 0, mz⟩, true, dt⟩).predict
        M).measure M 0 = some s2 →
      Recomposes M (s2.m_stateQ.conjugate.mul s2.m_measuredQPose)) :
    (∃ s1, calculatePose M.toRTMath s ⟨0, 0, 1⟩ ⟨mx, 0, mz⟩ 0 = some s1 ∧
      s1.m_measuredPose = ⟨0, 0, 0⟩ ∧
      (s1.m_measuredQPose = ⟨1, 0, 0, 0⟩ ∨ s1.m_measuredQPose = ⟨-1, 0, 0, 0⟩)) ∧
    (∃ r1, r.newIMUData M ⟨⟨0, 0, 0⟩, true, ⟨0, 0, 1⟩, true, ⟨mx, 0, mz⟩, true, dt⟩ 0
        = some r1 ∧
      r1.m_fusionPose = ⟨0, 0, 0⟩ ∧
      (r1.m_fusionQPose = ⟨1, 0, 0, 0⟩ ∨ r1.m_fusionQPose = ⟨-1, 0, 0, 0⟩)) := by
  constructor
  · obtain ⟨q, hcall, hq⟩ := level_calculatePose M.toRTMath hL s mx mz hmx ha hc hv
    exact ⟨_, hcall, rfl, hq⟩
  · have hto : ∀ q : RTQuaternion α, (q = ⟨1, 0, 0, 0⟩ ∨ q = ⟨-1, 0, 0, 0⟩) →
        M.toEuler q = ⟨0, 0, 0⟩ := by
      rintro q (rfl | rfl)
      · exact hL.2.2.2.1
      · exact hL.2.2.2.2
    have hpf := predict_frame M
      (r.loadSample ⟨⟨0, 0, 0⟩, true, ⟨0, 0, 1⟩, true, ⟨mx, 0, mz⟩, true, dt⟩)
    by_cases hfirst : r.m_firstTime = true
    · obtain ⟨q, hcall, hq⟩ := level_calculatePose M.toRTMath hL
        (r.loadSample ⟨⟨0, 0, 0⟩, true, ⟨0, 0, 1⟩, true, ⟨mx, 0, mz⟩, true, dt⟩).toRTFusion
        mx mz hmx hra hrc rfl
      have hm := measure_of_calculatePose M
        (r.loadSample ⟨⟨0, 0, 0⟩, true, ⟨0, 0, 1⟩, true, ⟨mx, 0, mz⟩, true, dt⟩) 0 _ hcall
      exact ⟨_, newIMUData_first_of M r _ 0 hfirst _ hm, hto q hq, hq⟩
    · have hfalse : r.m_firstTime = false := by simpa using hfirst
      have hunit : normSq r.m_stateQ = 1 := hstate.resolve_left hfirst
      have hidentity : normSq (⟨1, 0, 0, 0⟩ : RTQuaternion α) = 1 := by simp [normSq]
      have hpredQ : ((r.loadSample
          ⟨⟨0, 0, 0⟩, true, ⟨0, 0, 1⟩, true, ⟨mx, 0, mz⟩, true, dt⟩).predict M).m_stateQ
          = r.m_stateQ := by
        rw [predict_stateQ]
        split_ifs
        · simp only [RTFusionRTQF.loadSample, mul_zero, zero_mul, hF _ hidentity,
            mul_identity, hF _ hunit]
        · rfl
      obtain ⟨q, hcall, hq⟩ := level_calculatePose M.toRTMath hL
        ((r.loadSample ⟨⟨0, 0, 0⟩, true, ⟨0, 0, 1⟩, true, ⟨mx, 0, mz⟩, true,
          dt⟩).predict M).toRTFusion
        mx mz hmx (by rw [hpf.1]; exact hra) (by rw [hpf.1]; exact hrc) (by rw [hpf.1]; rfl)
      have hacc : ((r.loadSample ⟨⟨0, 0, 0⟩, true, ⟨0, 0, 1⟩, true, ⟨mx, 0, mz⟩, true,
          dt⟩).predict M).m_accel = ⟨0, 0, 1⟩ := hpf.2.1
      have hcmp : ((r.loadSample ⟨⟨0, 0, 0⟩, true, ⟨0, 0, 1⟩, true, ⟨mx, 0, mz⟩, true,
          dt⟩).predict M).m_compass = ⟨mx, 0, mz⟩ := hpf.2.2
      have hm := measure_of_calculatePose M
        ((r.loadSample ⟨⟨0, 0, 0⟩, true, ⟨0, 0, 1⟩, true, ⟨mx, 0, mz⟩, true,
          dt⟩).predict M) 0 _ (by rw [hacc, hcmp]; exact hcall)
      have hrec := hD _ hm
      have hp : ((r.loadSample ⟨⟨0, 0, 0⟩, true, ⟨0, 0, 1⟩, true, ⟨mx, 0, mz⟩, true,
          dt⟩).predict M).m_slerpPower = 1 := by
        rw [hpf.1]
        exact hpower
      have hqunit : normSq q = 1 := normSq_identity_or_neg q hq
      have hfused : (RTFusionRTQF.publish M (RTFusionRTQF.update M
          { (r.loadSample ⟨⟨0, 0, 0⟩, true, ⟨0, 0, 1⟩, true, ⟨mx, 0, mz⟩, true,
              dt⟩).predict M with
            toRTFusion := { ((r.loadSample ⟨⟨0, 0, 0⟩, true, ⟨0, 0, 1⟩, true, ⟨mx, 0, mz⟩,
                true, dt⟩).predict M).toRTFusion with
              m_measuredPose := ⟨0, 0, 0⟩, m_measuredQPose := q } })).m_stateQ = q := by
        simp only [Recomposes, hpredQ] at hrec
        simp only [RTFusionRTQF.publish, RTFusionRTQF.update, hp, mul_one, hpredQ, hrec,
          mul_conjugate_mul _ _ hunit]
        exact hF q hqunit
      refine ⟨_, newIMUData_next_of M r _ 0 hfalse _ hm, ?_, ?_⟩
      · exact (congrArg M.toEuler hfused).trans (hto q hq)
      · exact hq.imp (fun h => hfused.trans h) (fun h => hfused.trans h)

/-- Witness of C19: the level engine, and the example filter a half turn about x away from
level, on the level sample with the compass reading `(1,0,0)`. -/
theorem level_attitude_scenario_witness :
    LevelValues exampleQFMath.toRTMath ∧ NormalizeFixesUnit exampleQFMath ∧
    halfTurnFilter.m_slerpPower = 1 ∧ normSq halfTurnFilter.m_stateQ = 1 ∧
    (∃ s1, calculatePose exampleQFMath.toRTMath levelState ⟨0, 0, 1⟩ ⟨1, 0, 0⟩ 0 = some s1 ∧
      s1.m_measuredPose = ⟨0, 0, 0⟩ ∧
      (s1.m_measuredQPose = ⟨1, 0, 0, 0⟩ ∨ s1.m_measuredQPose = ⟨-1, 0, 0, 0⟩)) ∧
    (∃ r1, halfTurnFilter.newIMUData exampleQFMath levelSample 0 = some r1 ∧
      r1.m_fusionPose = ⟨0, 0, 0⟩ ∧
      (r1.m_fusionQPose = ⟨1, 0, 0, 0⟩ ∨ r1.m_fusionQPose = ⟨-1, 0, 0, 0⟩)) :=
  ⟨exampleMath_levelValues, exampleQFMath_normalizeFixesUnit, rfl,
    by norm_num [normSq, halfTurnFilter],
    level_attitude_scenario exampleQFMath exampleMath_levelValues
      exampleQFMath_normalizeFixesUnit 1 0 (1 / 100) one_pos levelState rfl rfl rfl
      halfTurnFilter rfl rfl rfl (Or.inr (by norm_num [normSq, halfTurnFilter]))
      halfTurn_recomposes⟩

end RTQFClaims

/-! ## The claims on the identifiers -/

section IdentifierClaims

/-- C21: fusion identifier.  The method `fusionType` returns the same type code
`RTFUSION_TYPE_RTQF` for every filter state, and the fusion name table holds exactly
five pairwise distinct names in the order "NULL", "Kalman STATE4", "RTQF", "Madgwick",
"Mahony", so the name at index 2, "RTQF", differs from the name at every other index. -/
theorem fusionType_and_names {α : Type} (RTFUSION_TYPE_RTQF : Int) (s t : RTFusionRTQF α) :
    s.fusionType RTFUSION_TYPE_RTQF = RTFUSION_TYPE_RTQF ∧
    s.fusionType RTFUSION_TYPE_RTQF = t.fusionType RTFUSION_TYPE_RTQF ∧
    m_fusionNameMap = ["NULL", "Kalman STATE4", "RTQF", "Madgwick", "Mahony"] ∧
    m_fusionNameMap.length = 5 ∧ m_fusionNameMap.Nodup ∧
    m_fusionNameMap.get? 2 = some "RTQF" ∧
    ∀ i, i ≠ 2 → m_fusionNameMap.get? i ≠ some "RTQF" := by
  refine ⟨rfl, rfl, rfl, rfl, by decide, rfl, ?_⟩
  intro i hi
  match i, hi with
  | 0, _ => decide
  | 1, _ => decide
  | 2, h => exact absurd rfl h
  | 3, _ => decide
  | 4, _ => decide
  | (n + 5), _ => simp [m_fusionNameMap]

/-- C22: the IMU type codes are stable and unambiguous.  There are fourteen codes, pairwise
distinct and strictly increasing in the order they are listed, the first two are 0
(AUTODISCOVER) and 1 (NULL), and none of them is the retired code 11. -/
theorem imuTypeCodes_stable :
    imuTypeCodes.length = 14 ∧ imuTypeCodes.Nodup ∧
    imuTypeCodes.Sorted (fun a b => a < b) ∧
    RTIMU_TYPE_AUTODISCOVER = 0 ∧ RTIMU_TYPE_NULL = 1 ∧
    imuTypeCodes.get? 0 = some RTIMU_TYPE_AUTODISCOVER ∧
    imuTypeCodes.get? 1 = some RTIMU_TYPE_NULL ∧
    11 ∉ imuTypeCodes := by
  refine ⟨rfl, by decide, by decide, rfl, rfl, rfl, rfl, by decide⟩

/-- C23: the ICM-20948 register bank selectors.  Each `ICM20948_BANKN` is `N` shifted left by
4 bits (0x00, 0x10, 0x20, 0x30); the four are pairwise distinct and have no bit set
outside bits 4 and 5. -/
theorem icm20948_bank_selectors :
    ICM20948_BANK0 = 0 <<< 4 ∧ ICM20948_BANK1 = 1 <<< 4 ∧
    ICM20948_BANK2 = 2 <<< 4 ∧ ICM20948_BANK3 = 3 <<< 4 ∧
    [ICM20948_BANK0, ICM20948_BANK1, ICM20948_BANK2, ICM20948_BANK3] = [0x00, 0x10, 0x20, 0x30] ∧
    [ICM20948_BANK0, ICM20948_BANK1, ICM20948_BANK2, ICM20948_BANK3].Nodup ∧
    ICM20948_BANK0 &&& 0x30 = ICM20948_BANK0 ∧ ICM20948_BANK1 &&& 0x30 = ICM20948_BANK1 ∧
    ICM20948_BANK2 &&& 0x30 = ICM20948_BANK2 ∧ ICM20948_BANK3 &&& 0x30 = ICM20948_BANK3 := by
  refine ⟨by decide, by decide, by decide, by decide, rfl, by decide, by decide, by decide,
    by decide, by decide⟩

end IdentifierClaims

/-! ## Further claims on the largest-component search and on the derived vectors -/

section SearchAndVectorClaims

variable {α : Type} [LinearOrderedField α]

/-- C24: index safety and tie-break of the largest-component search.  For every measured
quaternion the loop ends with `maxIndex` in `{0,1,2,3}`, never the initial -1; the
component there has the largest magnitude, and `maxIndex` is the smallest index whose
component has that magnitude; so the reads `data(maxIndex)` of the measured and of the
fused quaternion are both inside the array. -/
theorem maxSearch_index_safe (q fused : RTQuaternion α) :
    ∃ maxIndex maxVal d df, maxSearch q = some (maxIndex, maxVal) ∧
      (maxIndex = 0 ∨ maxIndex = 1 ∨ maxIndex = 2 ∨ maxIndex = 3) ∧ maxIndex ≠ -1 ∧
      q.data maxIndex = some d ∧ fused.data maxIndex = some df ∧
      (∀ j dj, q.data j = some dj → |dj| ≤ |d|) ∧
      (∀ i di, q.data i = some di → |di| = |d| → maxIndex ≤ i) := by
  obtain ⟨k, v, hk, d, hd, hmax, hfirst⟩ := maxSearch_spec q
  have hrange := data_index_range q k d hd
  obtain ⟨df, hdf⟩ := data_isSome_of_range fused k hrange
  refine ⟨k, v, d, df, hk, hrange, ?_, hd, hdf, hmax, ?_⟩
  · rcases hrange with h | h | h | h <;> rw [h] <;> decide
  · intro i di hi heq
    by_contra hlt
    have := hfirst i di (not_le.mp hlt) hi
    rw [heq] at this
    exact lt_irrefl _ this

/-- C25: sign-alias invariance of the derived vectors.  Both `getAccelResiduals` and
`getAccelGlobalFrame` return the same vector when the fused quaternion is `q` as when
it is `q` with all four components negated. -/
theorem accel_vectors_sign_invariant (s : RTFusion α) (accel : RTVector3 α) :
    getAccelResiduals { s with m_fusionQPose := s.m_fusionQPose.negate } accel
      = getAccelResiduals s accel ∧
    getAccelGlobalFrame { s with m_fusionQPose := s.m_fusionQPose.negate } accel
      = getAccelGlobalFrame s accel := by
  constructor
  · simp only [getAccelResiduals, rotatedGravity, RTQuaternion.mul, RTQuaternion.conjugate,
      RTQuaternion.negate, RTVector3.mk.injEq]
    refine ⟨by ring, by ring, by ring⟩
  · simp only [getAccelGlobalFrame, rotatedAccel, RTQuaternion.mul, RTQuaternion.conjugate,
      RTQuaternion.negate, RTVector3.mk.injEq]
    refine ⟨by ring, by ring, by ring⟩

/-- C26, as the code has it: for a fused quaternion `q` of norm 1, the body-frame gravity
vector `g = getAccelResiduals((0,0,0))`, which is the vector part of
`conjugate(q) * ((0,0,0,1) * q)`, fed into `getAccelGlobalFrame` gives exactly
`(0,0,1)`: the two utilities use mutually inverse rotations. -/
theorem gravity_body_to_global (s : RTFusion α) (hunit : normSq s.m_fusionQPose = 1) :
    getAccelResiduals s ⟨0, 0, 0⟩ =
      ⟨(s.m_fusionQPose.conjugate.mul
          ((⟨0, 0, 0, 1⟩ : RTQuaternion α).mul s.m_fusionQPose)).x,
        (s.m_fusionQPose.conjugate.mul
          ((⟨0, 0, 0, 1⟩ : RTQuaternion α).mul s.m_fusionQPose)).y,
        (s.m_fusionQPose.conjugate.mul
          ((⟨0, 0, 0, 1⟩ : RTQuaternion α).mul s.m_fusionQPose)).z⟩ ∧
    getAccelGlobalFrame s (getAccelResiduals s ⟨0, 0, 0⟩) = ⟨0, 0, 1⟩ := by
  constructor
  · simp [getAccelResiduals, rotatedGravity]
  · have key : getAccelGlobalFrame s (getAccelResiduals s ⟨0, 0, 0⟩) =
        ⟨0, 0, normSq s.m_fusionQPose * normSq s.m_fusionQPose⟩ := by
      simp only [getAccelGlobalFrame, rotatedAccel, getAccelResiduals, rotatedGravity,
        RTQuaternion.mul, RTQuaternion.conjugate, normSq, RTVector3.mk.injEq]
      refine ⟨by ring, by ring, by ring⟩
    rw [key, hunit, mul_one]

/-- Witness of C26 as amended: the level engine, whose fused quaternion is `(1,0,0,0)`. -/
theorem gravity_body_to_global_witness :
    normSq levelState.m_fusionQPose = 1 ∧
    getAccelGlobalFrame levelState (getAccelResiduals levelState ⟨0, 0, 0⟩) = ⟨0, 0, 1⟩ :=
  ⟨by norm_num [normSq, levelState],
    (gravity_body_to_global levelState (by norm_num [normSq, levelState])).2⟩

/-- Counterexample to C26 as stated: at the unit fused quaternion `(1,0,0,0)` the vector
`-getAccelResiduals((0,0,0))` is `(0,0,-1)`, which is not the vector part `(0,0,1)` of
`conjugate(q) * ((0,0,0,1) * q)`, and fed into `getAccelGlobalFrame` it gives
`(0,0,-1)`, not `(0,0,1)`. -/
theorem gravity_body_to_global_counterexample :
    normSq levelState.m_fusionQPose = 1 ∧
    getAccelResiduals levelState ⟨0, 0, 0⟩ = ⟨0, 0, 1⟩ ∧
    (levelState.m_fusionQPose.conjugate.mul
      ((⟨0, 0, 0, 1⟩ : RTQuaternion ℚ).mul levelState.m_fusionQPose)) = ⟨0, 0, 0, 1⟩ ∧
    getAccelGlobalFrame levelState
      ⟨-(getAccelResiduals levelState ⟨0, 0, 0⟩).x, -(getAccelResiduals levelState ⟨0, 0, 0⟩).y,
        -(getAccelResiduals levelState ⟨0, 0, 0⟩).z⟩ = ⟨0, 0, -1⟩ ∧
    (⟨0, 0, -1⟩ : RTVector3 ℚ) ≠ ⟨0, 0, 1⟩ := by
  refine ⟨?_, ?_, ?_, ?_, ?_⟩ <;>
    norm_num [normSq, levelState, getAccelResiduals, rotatedGravity, getAccelGlobalFrame,
      rotatedAccel, RTQuaternion.mul, RTQuaternion.conjugate]

/-- C27: `getAccelGlobalFrame` is an isometry for unit poses.  The squared Euclidean norm of
the result is `|q|^4 * |a|^2`, with `|q|^2` the squared norm of the fused quaternion;
for `q` of norm 1 it is the squared norm of `a`. -/
theorem getAccelGlobalFrame_norm (s : RTFusion α) (accel : RTVector3 α) :
    vnormSq (getAccelGlobalFrame s accel)
      = normSq s.m_fusionQPose ^ 2 * vnormSq accel ∧
    (normSq s.m_fusionQPose = 1 → vnormSq (getAccelGlobalFrame s accel) = vnormSq accel) := by
  have key : vnormSq (getAccelGlobalFrame s accel)
      = normSq s.m_fusionQPose ^ 2 * vnormSq accel := by
    simp only [vnormSq, getAccelGlobalFrame, rotatedAccel, RTQuaternion.mul,
      RTQuaternion.conjugate, normSq]
    ring
  refine ⟨key, fun h => ?_⟩
  rw [key, h]
  ring

/-- C28: closed form of the gravity residual.  With the fused quaternion `(w, x, y, z)`,
`getAccelResiduals(a)` is
`(2(xz - wy) - a.x, 2(yz + wx) - a.y, (w² - x² - y² + z²) - a.z)`; the squared norm of
`getAccelResiduals((0,0,0))` is `|q|^4`, so it has norm 1 for `q` of norm 1. -/
theorem getAccelResiduals_closed_form (s : RTFusion α) (accel : RTVector3 α) :
    getAccelResiduals s accel =
      ⟨2 * (s.m_fusionQPose.x * s.m_fusionQPose.z
            - s.m_fusionQPose.scalar * s.m_fusionQPose.y) - accel.x,
        2 * (s.m_fusionQPose.y * s.m_fusionQPose.z
            + s.m_fusionQPose.scalar * s.m_fusionQPose.x) - accel.y,
        (s.m_fusionQPose.scalar ^ 2 - s.m_fusionQPose.x ^ 2 - s.m_fusionQPose.y ^ 2
            + s.m_fusionQPose.z ^ 2) - accel.z⟩ ∧
    vnormSq (getAccelResiduals s ⟨0, 0, 0⟩) = normSq s.m_fusionQPose ^ 2 ∧
    (normSq s.m_fusionQPose = 1 → vnormSq (getAccelResiduals s ⟨0, 0, 0⟩) = 1) := by
  have key : vnormSq (getAccelResiduals s ⟨0, 0, 0⟩) = normSq s.m_fusionQPose ^ 2 := by
    simp only [vnormSq, getAccelResiduals, rotatedGravity, RTQuaternion.mul,
      RTQuaternion.conjugate, normSq]
    ring
  refine ⟨?_, key, fun h => ?_⟩
  · simp only [getAccelResiduals, rotatedGravity, RTQuaternion.mul, RTQuaternion.conjugate,
      RTVector3.mk.injEq]
    refine ⟨by ring, by ring, by ring⟩
  · rw [key, h]
    ring

/-- C29: nothing is discarded with the scalar part.  For every fused quaternion `q`, of
norm 1 or not, and every accel `a`, the scalar component of
`conjugate(q) * ((0,0,0,1) * q)` in `getAccelResiduals` and of
`q * ((0,a) * conjugate(q))` in `getAccelGlobalFrame` is 0. -/
theorem rotated_scalar_zero (s : RTFusion α) (accel : RTVector3 α) :
    (s.m_fusionQPose.conjugate.mul
      ((⟨0, 0, 0, 1⟩ : RTQuaternion α).mul s.m_fusionQPose)).scalar = 0 ∧
    (s.m_fusionQPose.mul
      ((⟨0, accel.x, accel.y, accel.z⟩ : RTQuaternion α).mul
        s.m_fusionQPose.conjugate)).scalar = 0 ∧
    (rotatedGravity s).scalar = 0 ∧ (rotatedAccel s accel).scalar = 0 := by
  refine ⟨?_, ?_, ?_, ?_⟩ <;>
    simp only [rotatedGravity, rotatedAccel, RTQuaternion.mul, RTQuaternion.conjugate] <;>
    ring

/-- C30: degenerate compass reading in `calculatePose`.  With compass fusion enabled and
valid, `atan2(0,0)` taken as 0, and a tilt-compensated field `m` with `m.x = 0` and
`m.y = 0`, the yaw of the measured pose before the sign-aliasing step is
`-magDeclination`, whatever the fused yaw is, and the call returns; the reading
`mag = (0,0,0)` is such a case for every state. -/
theorem calculatePose_degenerate_compass (P : RTMath α) (s : RTFusion α)
    (accel mag : RTVector3 α) (magDeclination : α)
    (hc : s.m_enableCompass = true) (hv : s.m_compassValid = true)
    (hatan : P.atan2 0 0 = 0)
    (hx : (rotatedMag P (accelStep P s accel) mag).x = 0)
    (hy : (rotatedMag P (accelStep P s accel) mag).y = 0) :
    (poseBeforeAlias P s accel mag magDeclination).z = -magDeclination ∧
    (∃ s1, calculatePose P s accel mag magDeclination = some s1) ∧
    (∀ yaw, (poseBeforeAlias P { s with m_fusionPose := { s.m_fusionPose with z := yaw } }
      accel mag magDeclination).z = -magDeclination) ∧
    (rotatedMag P (accelStep P s accel) ⟨0, 0, 0⟩).x = 0 ∧
    (rotatedMag P (accelStep P s accel) ⟨0, 0, 0⟩).y = 0 := by
  have hz : (poseBeforeAlias P s accel mag magDeclination).z = -magDeclination := by
    simp only [poseBeforeAlias, compassStep_of_enabled P s _ mag magDeclination hc hv, hx, hy,
      hatan]
    ring
  refine ⟨hz, ?_, ?_, ?_, ?_⟩
  · obtain ⟨k, dm, df, -, -, -, ⟨-, hcall⟩ | ⟨-, hcall⟩⟩ :=
      calculatePose_cases P s accel mag magDeclination
    · exact ⟨_, hcall⟩
    · exact ⟨_, hcall⟩
  · intro yaw
    have hstep : accelStep P { s with m_fusionPose := { s.m_fusionPose with z := yaw } } accel
        = accelStep P s accel := by
      simp only [accelStep]
    have hcomp := compassStep_of_enabled P
      { s with m_fusionPose := { s.m_fusionPose with z := yaw } } (accelStep P s accel) mag
      magDeclination hc hv
    rw [poseBeforeAlias, hstep, hcomp]
    simp only [hx, hy, hatan]
    ring
  · simp [rotatedMag, RTQuaternion.mul]
  · simp [rotatedMag, RTQuaternion.mul]

/-- Witness of C30: the level engine with the compass reading `(0,0,0)` and declination 3. -/
theorem calculatePose_degenerate_compass_witness :
    levelState.m_enableCompass = true ∧ levelState.m_compassValid = true ∧
    exampleMath.atan2 0 0 = 0 ∧
    (rotatedMag exampleMath (accelStep exampleMath levelState ⟨0, 0, 1⟩) ⟨0, 0, 0⟩).x = 0 ∧
    (rotatedMag exampleMath (accelStep exampleMath levelState ⟨0, 0, 1⟩) ⟨0, 0, 0⟩).y = 0 ∧
    (poseBeforeAlias exampleMath levelState ⟨0, 0, 1⟩ ⟨0, 0, 0⟩ 3).z = -3 :=
  ⟨rfl, rfl, rfl, by simp [rotatedMag, RTQuaternion.mul], by simp [rotatedMag, RTQuaternion.mul],
    (calculatePose_degenerate_compass exampleMath levelState ⟨0, 0, 1⟩ ⟨0, 0, 0⟩ 3 rfl rfl rfl
      (by simp [rotatedMag, RTQuaternion.mul]) (by simp [rotatedMag, RTQuaternion.mul])).1⟩

end SearchAndVectorClaims

end RTIMULib
